import Mathlib

/-!
# Verification of `pydantic_touchall/checker.py`

A shallow embedding of the analysis engine of the `pydantic-touchall`
static checker, together with proofs of the behavioural claims about it.

Embedding conventions:
* Python strings are Lean `String`s; the handful of Python string
  operations the checker uses (`in`, `split(sep, 1)[1]`, `split(',')`,
  `strip()`) are re-implemented over the underlying `List Char` so that
  they are kernel-computable and amenable to induction.  Python compares
  strings lexicographically by code point; `charListLt` mirrors that.
* Python `set`s of strings are represented canonically as
  lexicographically sorted duplicate-free lists (`pySet`); `sorted(s)`
  of such a set is then the list itself, and `sorted(l)` of a plain
  list is `insSort l`.
* Python dicts are association lists with overwrite-on-insert
  (`dictInsert`); iteration order over a dict only occurs in the model
  merge loop of `_load_imported_model`, whose result is order
  independent because the keys of the iterated dict are distinct.
* The AST fragment relevant to the checker is `PyExpr`/`Stmt`; the
  `ast.NodeVisitor` traversal (`visit` + `generic_visit`) becomes the
  `visitStmt`/`visitExpr` families, which visit children in the field
  order of the corresponding CPython AST nodes.
* Filesystem-dependent helpers are abstracted into a `Ctx` record:
  `abspath` models `os.path.abspath`, `resolve` models
  `_resolve_module_path` (a pure filesystem lookup), and `fs` models
  `open` + `source.splitlines()` + `ast.parse` (returning an I/O
  failure, a syntax error, or a parsed module with its source lines).
-/

/-! ## Python string primitives over `List Char` -/

/-- `leadsWith p s` is true iff the char list `p` is an initial segment
of `s` (helper for substring search, mirroring Python `str.startswith`). -/
def leadsWith : List Char → List Char → Bool
  | [], _ => true
  | _ :: _, [] => false
  | p :: ps, c :: cs => p == c && leadsWith ps cs

/-- `containsChars sub s` is true iff `sub` occurs (contiguously) in `s`;
mirrors Python's `sub in s`. -/
def containsChars (sub : List Char) : List Char → Bool
  | [] => sub.isEmpty
  | c :: cs => leadsWith sub (c :: cs) || containsChars sub cs

/-- Python `sub in s` for strings. -/
def pyContains (s sub : String) : Bool := containsChars sub.data s.data

/-- Everything after the first occurrence of `sep` in the char list
(empty if `sep` does not occur); mirrors `s.split(sep, 1)[1]`. -/
def dropAfterFirst (sep : List Char) : List Char → List Char
  | [] => []
  | c :: cs =>
    if leadsWith sep (c :: cs) then (c :: cs).drop sep.length
    else dropAfterFirst sep cs

/-- Python `s.split(sep, 1)[1]` (used by the code only when `sep in s`). -/
def pyAfterFirst (s sep : String) : String :=
  String.mk (dropAfterFirst sep.data s.data)

/-- The ASCII whitespace characters stripped by Python `str.strip()`. -/
def isPySpace (c : Char) : Bool :=
  c == ' ' || c == '\t' || c == '\n' || c == '\r' || c == '\x0b' || c == '\x0c'

/-- Python `s.strip()`. -/
def pyStrip (s : String) : String :=
  String.mk (((s.data.dropWhile isPySpace).reverse.dropWhile isPySpace).reverse)

/-- Split a char list on every occurrence of the character `sep`,
keeping empty pieces; mirrors Python `s.split(sep)` for a one-char
separator. -/
def splitCharAux (sep : Char) : List Char → List (List Char)
  | [] => [[]]
  | c :: cs =>
    if c == sep then [] :: splitCharAux sep cs
    else
      match splitCharAux sep cs with
      | [] => [[c]]
      | h :: t => (c :: h) :: t

/-- Python `s.split(',')`. -/
def splitOnComma (s : String) : List String :=
  (splitCharAux ',' s.data).map String.mk

/-! ## Lexicographic order on strings (Python compares by code point) -/

/-- Strict lexicographic order on char lists by code point, as Python
`<` on strings. -/
def charListLt : List Char → List Char → Bool
  | [], [] => false
  | [], _ :: _ => true
  | _ :: _, [] => false
  | a :: as, b :: bs =>
    if a < b then true
    else if b < a then false
    else charListLt as bs

/-- Python `<` on strings. -/
def strLt (a b : String) : Bool := charListLt a.data b.data

theorem charListLt_trans {a b c : List Char} (h1 : charListLt a b = true)
    (h2 : charListLt b c = true) : charListLt a c = true := by
  induction a generalizing b c with
  | nil =>
    cases c with
    | nil =>
      exfalso
      cases b with
      | nil => simp [charListLt] at h2
      | cons y ys => simp [charListLt] at h2
    | cons z zs => rfl
  | cons x xs ih =>
    cases b with
    | nil => simp [charListLt] at h1
    | cons y ys =>
      cases c with
      | nil => simp [charListLt] at h2
      | cons z zs =>
        by_cases hxy : x < y
        · by_cases hyz : y < z
          · simp [charListLt, lt_trans hxy hyz]
          · by_cases hzy : z < y
            · simp [charListLt, hyz, hzy] at h2
            · have : y = z := le_antisymm (not_lt.mp hzy) (not_lt.mp hyz)
              subst this
              simp [charListLt, hxy]
        · by_cases hyx : y < x
          · simp [charListLt, hxy, hyx] at h1
          · have hxyeq : x = y := le_antisymm (not_lt.mp hyx) (not_lt.mp hxy)
            subst hxyeq
            simp only [charListLt, if_neg hxy, if_neg hyx] at h1
            by_cases hyz : x < z
            · simp [charListLt, hyz]
            · by_cases hzy : z < x
              · simp [charListLt, hyz, hzy] at h2
              · simp only [charListLt, if_neg hyz, if_neg hzy] at h2 ⊢
                exact ih h1 h2

theorem charListLt_irrefl (l : List Char) : charListLt l l = false := by
  induction l with
  | nil => rfl
  | cons c cs ih => simp [charListLt, ih]

theorem charListLt_asymm {a b : List Char} (h : charListLt a b = true) :
    charListLt b a = false := by
  induction a generalizing b with
  | nil =>
    cases b with
    | nil => simp [charListLt] at h
    | cons y ys => rfl
  | cons x xs ih =>
    cases b with
    | nil => simp [charListLt] at h
    | cons y ys =>
      by_cases hxy : x < y
      · have : ¬ y < x := lt_asymm hxy
        simp [charListLt, hxy, this, ne_of_lt hxy]
      · by_cases hyx : y < x
        · simp [charListLt, hxy, hyx] at h
        · have hx : ¬ x < y := hxy
          simp only [charListLt, if_neg hx, if_neg hyx] at h
          simp [charListLt, if_neg hyx, if_neg hx, ih h]

theorem charListLt_total {a b : List Char} (hab : charListLt a b = false)
    (hba : charListLt b a = false) : a = b := by
  induction a generalizing b with
  | nil =>
    cases b with
    | nil => rfl
    | cons y ys => simp [charListLt] at hab
  | cons x xs ih =>
    cases b with
    | nil => simp [charListLt] at hba
    | cons y ys =>
      by_cases hxy : x < y
      · simp [charListLt, hxy] at hab
      · by_cases hyx : y < x
        · simp [charListLt, hyx] at hba
        · have hx : x = y := le_antisymm (not_lt.mp hyx) (not_lt.mp hxy)
          simp only [charListLt, if_neg hxy, if_neg hyx] at hab hba
          simp [hx, ih hab hba]

theorem strLt_trans {a b c : String} (h1 : strLt a b = true)
    (h2 : strLt b c = true) : strLt a c = true := charListLt_trans h1 h2

theorem strLt_irrefl (s : String) : strLt s s = false := charListLt_irrefl _

theorem strLt_asymm {a b : String} (h : strLt a b = true) : strLt b a = false :=
  charListLt_asymm h

theorem strLt_total {a b : String} (hab : strLt a b = false)
    (hba : strLt b a = false) : a = b := by
  cases a; cases b
  exact congrArg String.mk (charListLt_total hab hba)

/-! ## Python sets of strings as sorted duplicate-free lists -/

/-- The order relation used for sortedness of canonical sets. -/
def StrSorted (l : List String) : Prop :=
  List.Pairwise (fun a b => strLt a b = true) l

/-- Insert into a sorted duplicate-free list, discarding a duplicate. -/
def insertStr (x : String) : List String → List String
  | [] => [x]
  | y :: ys =>
    if x == y then y :: ys
    else if strLt x y then x :: y :: ys
    else y :: insertStr x ys

/-- Canonical representation of a Python `set` of strings: sorted,
duplicate-free. -/
def pySet (l : List String) : List String := l.foldr insertStr []

/-- Sorted insert that keeps duplicates (for Python `sorted` on lists). -/
def insOrd (x : String) : List String → List String
  | [] => [x]
  | y :: ys => if strLt y x then y :: insOrd x ys else x :: y :: ys

/-- Python `sorted(l)` for a list of strings. -/
def insSort (l : List String) : List String := l.foldr insOrd []

/-- Python set difference `a - b` on canonical set representations. -/
def pyDiff (a b : List String) : List String := a.filter (fun x => !(b.elem x))

theorem mem_insertStr {a x : String} {l : List String} :
    a ∈ insertStr x l ↔ a = x ∨ a ∈ l := by
  induction l with
  | nil => simp [insertStr]
  | cons y ys ih =>
    simp only [insertStr]
    by_cases hxy : (x == y) = true
    · have hxy' : x = y := by simpa using hxy
      rw [if_pos hxy]
      subst hxy'
      simp only [List.mem_cons]
      tauto
    · rw [if_neg hxy]
      by_cases hlt : strLt x y = true
      · rw [if_pos hlt]
        simp only [List.mem_cons]
      · rw [if_neg hlt]
        simp only [List.mem_cons, ih]
        tauto

theorem mem_pySet {a : String} {l : List String} : a ∈ pySet l ↔ a ∈ l := by
  induction l with
  | nil => simp [pySet]
  | cons x xs ih =>
    simp only [pySet, List.foldr_cons] at *
    rw [mem_insertStr, ih]
    simp

theorem sorted_insertStr {x : String} {l : List String} (h : StrSorted l) :
    StrSorted (insertStr x l) := by
  induction l with
  | nil => simp [insertStr, StrSorted]
  | cons y ys ih =>
    rcases (List.pairwise_cons.mp h) with ⟨hy, hys⟩
    simp only [insertStr]
    by_cases hxy : (x == y) = true
    · rw [if_pos hxy]; exact h
    · rw [if_neg hxy]
      by_cases hlt : strLt x y = true
      · rw [if_pos hlt]
        refine List.pairwise_cons.mpr ⟨?_, h⟩
        intro b hb
        rcases List.mem_cons.mp hb with hb | hb
        · subst hb; exact hlt
        · exact strLt_trans hlt (hy b hb)
      · rw [if_neg hlt]
        have hyx : strLt y x = true := by
          by_cases h' : strLt y x = true
          · exact h'
          · exfalso
            have heq := strLt_total (Bool.eq_false_iff.mpr hlt)
              (Bool.eq_false_iff.mpr h')
            exact hxy (by simp [heq])
        refine List.pairwise_cons.mpr ⟨?_, ih hys⟩
        intro b hb
        rcases mem_insertStr.mp hb with hb | hb
        · subst hb; exact hyx
        · exact hy b hb

theorem sorted_pySet (l : List String) : StrSorted (pySet l) := by
  induction l with
  | nil => simp [pySet, StrSorted]
  | cons x xs ih => exact sorted_insertStr ih

theorem sorted_pyDiff {a : List String} (b : List String) (h : StrSorted a) :
    StrSorted (pyDiff a b) := List.Pairwise.filter _ h

/-- `List.elem` is `false` exactly on non-members (strings have a lawful
`BEq`). -/
theorem elem_eq_false_of_not_mem {x : String} {l : List String} (h : x ∉ l) :
    l.elem x = false := by
  rw [Bool.eq_false_iff]
  intro hT
  exact h (List.elem_iff.mp hT)

theorem mem_pyDiff {x : String} {a b : List String} :
    x ∈ pyDiff a b ↔ x ∈ a ∧ x ∉ b := by
  simp only [pyDiff, List.mem_filter]
  constructor
  · rintro ⟨h1, h2⟩
    refine ⟨h1, fun hmem => ?_⟩
    rw [List.elem_iff.mpr hmem] at h2
    simp at h2
  · rintro ⟨h1, h2⟩
    exact ⟨h1, by rw [elem_eq_false_of_not_mem h2]; rfl⟩

/-- Two sorted duplicate-free lists with the same members are equal. -/
theorem sorted_mem_ext {a b : List String} (ha : StrSorted a) (hb : StrSorted b)
    (h : ∀ x, x ∈ a ↔ x ∈ b) : a = b := by
  induction a generalizing b with
  | nil =>
    cases b with
    | nil => rfl
    | cons y ys => exact absurd ((h y).mpr (List.mem_cons_self _ _)) (by simp)
  | cons x xs ih =>
    cases b with
    | nil => exact absurd ((h x).mp (List.mem_cons_self _ _)) (by simp)
    | cons y ys =>
      rcases List.pairwise_cons.mp ha with ⟨hxa, ha'⟩
      rcases List.pairwise_cons.mp hb with ⟨hyb, hb'⟩
      have hxy : x = y := by
        have hx : x ∈ y :: ys := (h x).mp (List.mem_cons_self _ _)
        have hy : y ∈ x :: xs := (h y).mpr (List.mem_cons_self _ _)
        rcases List.mem_cons.mp hx with h1 | h1
        · exact h1
        rcases List.mem_cons.mp hy with h2 | h2
        · exact h2.symm
        · exfalso
          have hby := hyb x h1
          have hxb := hxa y h2
          have hf := strLt_asymm hxb
          rw [hf] at hby
          exact Bool.false_ne_true hby
      subst hxy
      have : xs = ys := by
        refine ih ha' hb' ?_
        intro z
        constructor
        · intro hz
          have : z ∈ x :: ys := (h z).mp (List.mem_cons_of_mem _ hz)
          rcases List.mem_cons.mp this with h1 | h1
          · exfalso
            subst h1
            have hc := hxa z hz
            rw [strLt_irrefl] at hc
            exact Bool.false_ne_true hc
          · exact h1
        · intro hz
          have : z ∈ x :: xs := (h z).mpr (List.mem_cons_of_mem _ hz)
          rcases List.mem_cons.mp this with h1 | h1
          · exfalso
            subst h1
            have hc := hyb z hz
            rw [strLt_irrefl] at hc
            exact Bool.false_ne_true hc
          · exact h1
      rw [this]

theorem mem_insOrd {a x : String} {l : List String} :
    a ∈ insOrd x l ↔ a = x ∨ a ∈ l := by
  induction l with
  | nil => simp [insOrd]
  | cons y ys ih =>
    by_cases h : strLt y x
    · simp only [insOrd, if_pos h, List.mem_cons, ih]
      tauto
    · simp only [insOrd, if_neg h, List.mem_cons]

theorem mem_insSort {a : String} {l : List String} : a ∈ insSort l ↔ a ∈ l := by
  induction l with
  | nil => simp [insSort]
  | cons x xs ih =>
    simp only [insSort, List.foldr_cons] at *
    rw [mem_insOrd, ih]
    simp

/-- `sorted` is the identity on an already sorted duplicate-free list. -/
theorem insSort_of_sorted {l : List String} (h : StrSorted l) : insSort l = l := by
  induction l with
  | nil => rfl
  | cons x xs ih =>
    rcases List.pairwise_cons.mp h with ⟨hx, hxs⟩
    have : insSort (x :: xs) = insOrd x (insSort xs) := rfl
    rw [this, ih hxs]
    cases xs with
    | nil => rfl
    | cons y ys =>
      have hxy := hx y (List.mem_cons_self _ _)
      have : strLt y x = false := strLt_asymm hxy
      simp [insOrd, this]

theorem pyDiff_nil (a : List String) : pyDiff a [] = a := by
  simp [pyDiff, List.elem]

theorem pyDiff_eq_nil {a b : List String} (h : ∀ x ∈ a, x ∈ b) :
    pyDiff a b = [] := by
  rw [pyDiff, List.filter_eq_nil_iff]
  intro x hx
  simp only [Bool.not_eq_true', Bool.not_eq_false]
  exact List.elem_iff.mpr (h x hx)

theorem elem_pyDiff (x : String) (a b : List String) :
    (pyDiff a b).elem x = (a.elem x && !(b.elem x)) := by
  by_cases hx : x ∈ pyDiff a b
  · rcases mem_pyDiff.mp hx with ⟨h1, h2⟩
    rw [List.elem_iff.mpr hx, List.elem_iff.mpr h1, elem_eq_false_of_not_mem h2]
    rfl
  · rw [elem_eq_false_of_not_mem hx]
    by_cases ha : x ∈ a
    · have hb : x ∈ b := by
        by_contra hb
        exact hx (mem_pyDiff.mpr ⟨ha, hb⟩)
      rw [List.elem_iff.mpr hb]
      simp
    · rw [elem_eq_false_of_not_mem ha]
      rfl

/-! ## Data model (`FieldInfo`, registry dictionaries) -/

/-- `FieldInfo` dataclass from `checker.py`. -/
structure FieldInfo where
  name : String
  has_default : Bool
  is_optional : Bool
deriving Repr, DecidableEq

/-- Python dict lookup `d[k]` (as an `Option`). -/
def dictFind {β : Type} (d : List (String × β)) (k : String) : Option β :=
  (d.find? (fun p => p.1 == k)).map Prod.snd

/-- Python `k in d`. -/
def dictMem {β : Type} (d : List (String × β)) (k : String) : Bool :=
  (dictFind d k).isSome

/-- Python dict assignment `d[k] = v` (overwrite).  The association list
order differs from CPython's insertion order, but the only place the
checker iterates over a dict (the merge loop of `_load_imported_model`)
is order independent because the iterated dict has distinct keys. -/
def dictInsert {β : Type} (d : List (String × β)) (k : String) (v : β) :
    List (String × β) :=
  (k, v) :: d.eraseP (fun p => p.1 == k)

/-- One reported finding: `(lineno, col_offset, message)`. -/
abbrev Err := Nat × Nat × String

/-- The mutable state of a `BaseModelFieldChecker` instance.  `base_path`
is omitted: it is stored but never read by any observable computation. -/
structure CheckerState where
  model_definitions : List (String × List FieldInfo) := []
  errors : List Err := []
  processed_files : List String := []
  imported_models : List (String × String) := []
deriving Repr, DecidableEq

/-! ## AST fragment -/

/-- The expression fragment of the Python AST that the checker can
encounter.  Children are visited by `generic_visit` in the field order
of the corresponding CPython node (`IfExp` fields are
`test, body, orelse`; `Call` fields are `func, args, keywords`;
`Subscript` fields are `value, slice`). -/
inductive PyExpr where
  | nameE (id : String)
  | attrE (value : PyExpr) (attr : String)
  | subscriptE (value : PyExpr) (slice : PyExpr)
  | ifE (test body orelse : PyExpr)
  | callE (func : PyExpr) (args : List PyExpr)
      (keywords : List (Option String × PyExpr)) (lineno col : Nat)
  | constE
deriving Repr

/-- Statements: `from module import name [as asname], ...` (module is
`none` for `from . import x`, an alias name of `"*"` is a wildcard),
class definitions, annotated assignments (`target` is `some id` only
when the assignment target is a plain `ast.Name`), and statements whose
traversal reduces to visiting one expression (expression statements and
the right-hand side of simple assignments). -/
inductive Stmt where
  | importFrom (module : Option String) (names : List (String × Option String))
  | classDef (name : String) (bases : List PyExpr) (body : List Stmt)
  | annAssign (target : Option String) (ann : PyExpr) (value : Option PyExpr)
  | exprStmt (e : PyExpr)
deriving Repr

/-- A module: `ast.parse` result, a list of top-level statements. -/
abbrev PyModule := List Stmt

/-- Result of `ast.parse` on a file's source: a `SyntaxError` (with the
parser's optional position) or a parsed tree, paired with
`source.splitlines()`. -/
inductive ParseResult where
  | syntaxError (lineno off : Option Nat) (msg : String)
  | parsed (tree : PyModule) (source_lines : List String)

/-- Result of `open(path).read()` followed by `ast.parse`: an `OSError`
on open/read, or the parse result. -/
inductive ReadResult where
  | ioError
  | src (p : ParseResult)

/-- The filesystem-dependent environment, abstracted: `abspath` models
`os.path.abspath`, `resolve` models `_resolve_module_path module_name
current_file` (pure filesystem lookup for the module's `.py` or
`__init__.py`), and `fs` models opening, reading and parsing a path. -/
structure Ctx where
  abspath : String → String
  resolve : String → String → Option String
  fs : String → ReadResult

/-! ## `_is_optional_type`, base-class test, `_extract_fields` -/

/-- `_is_optional_type`: the annotation is a `Subscript` whose value is
the `Name` `Optional` or an `Attribute` with attr `Optional`. -/
def is_optional_type : PyExpr → Bool
  | .subscriptE (.nameE id) _ => id == "Optional"
  | .subscriptE (.attrE _ a) _ => a == "Optional"
  | _ => false

/-- The base-expression test of `visit_ClassDef`: a `Name` whose id is
`BaseModel` or `Base`, or an `Attribute` whose attr is one of those. -/
def is_model_base : PyExpr → Bool
  | .nameE id => id == "BaseModel" || id == "Base"
  | .attrE _ a => a == "BaseModel" || a == "Base"
  | _ => false

/-- `_extract_fields`: collect one `FieldInfo` per annotated assignment
with a `Name` target in the class body, in declaration order. -/
def extract_fields (body : List Stmt) : List FieldInfo :=
  body.filterMap fun item =>
    match item with
    | .annAssign (some field_name) ann value =>
        some { name := field_name, has_default := value.isSome,
               is_optional := is_optional_type ann }
    | _ => none

/-! ## `_check_ignore_comment` -/

/-- Long-form or short-alias field-scoped marker occurs in the line. -/
def fieldMarkerIn (line : String) : Bool :=
  pyContains line "# pydantic-touchall: ignore-field" ||
  pyContains line "# touchall: ignore-field"

/-- Long-form or short-alias bare marker occurs in the line. -/
def bareMarkerIn (line : String) : Bool :=
  pyContains line "# pydantic-touchall: ignore" ||
  pyContains line "# touchall: ignore"

/-- The field names parsed from a field-scoped directive line:
everything after the first `ignore-field` in the comment part, split on
commas, each token stripped, empty tokens discarded, collected as a
set. -/
def parseIgnoreFields (line : String) : List String :=
  let comment_part := pyAfterFirst line "#"
  let field_part := pyStrip (pyAfterFirst comment_part "ignore-field")
  pySet (((splitOnComma field_part).map pyStrip).filter (fun s => !(s == "")))

/-- The `for line in lines_to_check` loop of `_check_ignore_comment`:
first matching line decides; on each line the field-scoped marker is
tried before the bare marker (the bare marker is a substring of the
field-scoped one). -/
def scanIgnoreLines : List String → Bool × List String
  | [] => (false, [])
  | line :: rest =>
    if fieldMarkerIn line then
      if pyContains (pyAfterFirst line "#") "ignore-field" then
        (false, parseIgnoreFields line)
      else scanIgnoreLines rest
    else if bareMarkerIn line then (true, [])
    else scanIgnoreLines rest

/-- `_check_ignore_comment lineno`: returns
`(suppress everything, set of suppressed field names)`. -/
def check_ignore_comment (source_lines : List String) (lineno : Nat) :
    Bool × List String :=
  if source_lines.isEmpty || lineno == 0 || source_lines.length < lineno then
    (false, [])
  else
    let lines_to_check :=
      (if 0 < lineno then [source_lines.getD (lineno - 1) ""] else []) ++
      (if 1 < lineno then [source_lines.getD (lineno - 2) ""] else [])
    scanIgnoreLines lines_to_check

/-! ## `_check_instantiation` -/

/-- The missing-required message
`f"Error: {class_name}の必須フィールドが不足: {', '.join(names)}"`. -/
def missingMsg (class_name : String) (names : List String) : String :=
  "Error: " ++ class_name ++ "の必須フィールドが不足: " ++ String.intercalate ", " names

/-- The unused-optional message. -/
def optionalMsg (class_name : String) (names : List String) : String :=
  "Error: " ++ class_name ++ "のオプションフィールドが未使用: " ++ String.intercalate ", " names

/-- The unknown-field message. -/
def unknownMsg (class_name : String) (names : List String) : String :=
  "Error: " ++ class_name ++ "に存在しないフィールド: " ++ String.intercalate ", " names

/-- `_check_instantiation`, statement by statement.  `keyword_args` is
the list of `keyword.arg` values of the call (`none` for `**kwargs`);
positional arguments do not appear because the Python code never reads
`node.args`.  The caller guarantees `class_name ∈ model_definitions`,
so the `getD []` default is never exercised by `visit_Call`. -/
def check_instantiation (source_lines : List String) (st : CheckerState)
    (class_name : String) (keyword_args : List (Option String))
    (lineno col : Nat) : CheckerState :=
  let ig := check_ignore_comment source_lines lineno
  if ig.1 then st
  else
    let fields := (dictFind st.model_definitions class_name).getD []
    let required_fields :=
      pySet ((fields.filter fun f => !f.has_default && !f.is_optional).map FieldInfo.name)
    let all_fields := pySet (fields.map FieldInfo.name)
    let provided_fields := pySet (keyword_args.filterMap id)
    if keyword_args.any Option.isNone then st
    else
      let missing_required := pyDiff (pyDiff required_fields provided_fields) ig.2
      let st1 :=
        if missing_required.isEmpty then st
        else { st with errors :=
          st.errors ++ [(lineno, col, missingMsg class_name (insSort missing_required))] }
      let missing_all := pyDiff (pyDiff all_fields provided_fields) ig.2
      let optional_missing :=
        (fields.filter fun f =>
          missing_all.elem f.name && (f.has_default || f.is_optional)).map FieldInfo.name
      let st2 :=
        if missing_all.isEmpty then st1
        else if optional_missing.isEmpty then st1
        else { st1 with errors :=
          st1.errors ++ [(lineno, col, optionalMsg class_name (insSort optional_missing))] }
      let unknown_fields := pyDiff provided_fields all_fields
      if unknown_fields.isEmpty then st2
      else { st2 with errors :=
        st2.errors ++ [(lineno, col, unknownMsg class_name (insSort unknown_fields))] }

/-! ## Traversal -/

/-- The class-name extraction of `visit_Call` (`Name.id` or
`Attribute.attr`). -/
def func_class_name : PyExpr → Option String
  | .nameE id => some id
  | .attrE _ a => some a
  | _ => none

/-- `visit_ImportFrom`: record `localName ↦ sourceModule` per alias,
skipping `*`; a relative `from . import x` has `module = none` and is
ignored. -/
def visit_ImportFrom (module : Option String)
    (names : List (String × Option String)) (st : CheckerState) : CheckerState :=
  match module with
  | none => st
  | some module_path =>
      names.foldl (fun st p =>
        if p.1 == "*" then st
        else { st with
               imported_models := dictInsert st.imported_models (p.2.getD p.1) module_path }) st

/-- The registration part of `visit_ClassDef` (the subsequent
`generic_visit` lives in the traversal functions): if any base matches
the marker, store the extracted fields, overwriting any previous entry
for the same name. -/
def visit_ClassDef (name : String) (bases : List PyExpr) (body : List Stmt)
    (st : CheckerState) : CheckerState :=
  if bases.any is_model_base then
    { st with model_definitions :=
        dictInsert st.model_definitions name (extract_fields body) }
  else st

/-! The temp-checker traversal.  `_load_imported_model` builds a fresh
`BaseModelFieldChecker` *without* setting `current_file` and without
source lines, so inside that checker `visit_Call` never loads imports
(`hasattr(self, 'current_file')` is false) and ignore comments never
match (empty `source_lines`).  We embed this mode as its own function
family `tvisit*`. -/

mutual
def tvisitExpr : PyExpr → CheckerState → CheckerState
  | .nameE _, st => st
  | .constE, st => st
  | .attrE v _, st => tvisitExpr v st
  | .subscriptE v s, st => tvisitExpr s (tvisitExpr v st)
  | .ifE t b o, st => tvisitExpr o (tvisitExpr b (tvisitExpr t st))
  | .callE func args keywords lineno col, st =>
      let st :=
        match func_class_name func with
        | some class_name =>
            if dictMem st.model_definitions class_name then
              check_instantiation [] st class_name (keywords.map Prod.fst) lineno col
            else st
        | none => st
      tvisitKeywords keywords (tvisitExprs args (tvisitExpr func st))
def tvisitExprs : List PyExpr → CheckerState → CheckerState
  | [], st => st
  | e :: rest, st => tvisitExprs rest (tvisitExpr e st)
def tvisitKeywords : List (Option String × PyExpr) → CheckerState → CheckerState
  | [], st => st
  | kw :: rest, st => tvisitKeywords rest (tvisitExpr kw.2 st)
end

mutual
def tvisitStmt : Stmt → CheckerState → CheckerState
  | .importFrom module names, st => visit_ImportFrom module names st
  | .classDef name bases body, st =>
      tvisitStmts body (tvisitExprs bases (visit_ClassDef name bases body st))
  | .annAssign _ ann value, st =>
      let st := tvisitExpr ann st
      match value with
      | none => st
      | some v => tvisitExpr v st
  | .exprStmt e, st => tvisitExpr e st
def tvisitStmts : List Stmt → CheckerState → CheckerState
  | [], st => st
  | s :: rest, st => tvisitStmts rest (tvisitStmt s st)
end

/-- The merge loop of `_load_imported_model`: a discovered definition is
taken over iff it is the requested name or not yet present (the
requested name is never present here, because `_load_imported_model`
returns early otherwise). -/
def mergeDefs (model_name : String) (tempDefs : List (String × List FieldInfo))
    (st : CheckerState) : CheckerState :=
  tempDefs.foldl (fun st p =>
    if p.1 == model_name || !(dictMem st.model_definitions p.1) then
      { st with model_definitions := dictInsert st.model_definitions p.1 p.2 }
    else st) st

/-- `_load_imported_model model_name current_file`.  The temp checker
shares the run's `processed_files` set; since it never loads imports,
the set is unchanged by its traversal.  `OSError` and `SyntaxError`
while reading the target are swallowed. -/
def load_imported_model (ctx : Ctx) (current_file : String)
    (model_name : String) (st : CheckerState) : CheckerState :=
  if dictMem st.model_definitions model_name then st
  else
    match dictFind st.imported_models model_name with
    | none => st
    | some module_path =>
      match ctx.resolve module_path current_file with
      | none => st
      | some file_path =>
        if file_path ∈ st.processed_files then st
        else
          let st1 := { st with processed_files := file_path :: st.processed_files }
          match ctx.fs file_path with
          | .ioError => st1
          | .src (.syntaxError _ _ _) => st1
          | .src (.parsed tree _) =>
              let temp := tvisitStmts tree
                { model_definitions := [], errors := [],
                  processed_files := st1.processed_files, imported_models := [] }
              mergeDefs model_name temp.model_definitions st1

/-! The main traversal: the checker driven by `check_file`, which always
has `current_file` set, so `visit_Call` first tries
`_load_imported_model` and then checks the instantiation. -/

mutual
def visitExpr (ctx : Ctx) (source_lines : List String) (current_file : String) :
    PyExpr → CheckerState → CheckerState
  | .nameE _, st => st
  | .constE, st => st
  | .attrE v _, st => visitExpr ctx source_lines current_file v st
  | .subscriptE v s, st =>
      visitExpr ctx source_lines current_file s
        (visitExpr ctx source_lines current_file v st)
  | .ifE t b o, st =>
      visitExpr ctx source_lines current_file o
        (visitExpr ctx source_lines current_file b
          (visitExpr ctx source_lines current_file t st))
  | .callE func args keywords lineno col, st =>
      let st :=
        match func_class_name func with
        | some class_name =>
            let st := load_imported_model ctx current_file class_name st
            if dictMem st.model_definitions class_name then
              check_instantiation source_lines st class_name
                (keywords.map Prod.fst) lineno col
            else st
        | none => st
      visitKeywords ctx source_lines current_file keywords
        (visitExprs ctx source_lines current_file args
          (visitExpr ctx source_lines current_file func st))
def visitExprs (ctx : Ctx) (source_lines : List String) (current_file : String) :
    List PyExpr → CheckerState → CheckerState
  | [], st => st
  | e :: rest, st =>
      visitExprs ctx source_lines current_file rest
        (visitExpr ctx source_lines current_file e st)
def visitKeywords (ctx : Ctx) (source_lines : List String) (current_file : String) :
    List (Option String × PyExpr) → CheckerState → CheckerState
  | [], st => st
  | kw :: rest, st =>
      visitKeywords ctx source_lines current_file rest
        (visitExpr ctx source_lines current_file kw.2 st)
end

mutual
def visitStmt (ctx : Ctx) (source_lines : List String) (current_file : String) :
    Stmt → CheckerState → CheckerState
  | .importFrom module names, st => visit_ImportFrom module names st
  | .classDef name bases body, st =>
      visitStmts ctx source_lines current_file body
        (visitExprs ctx source_lines current_file bases
          (visit_ClassDef name bases body st))
  | .annAssign _ ann value, st =>
      let st := visitExpr ctx source_lines current_file ann st
      match value with
      | none => st
      | some v => visitExpr ctx source_lines current_file v st
  | .exprStmt e, st => visitExpr ctx source_lines current_file e st
def visitStmts (ctx : Ctx) (source_lines : List String) (current_file : String) :
    List Stmt → CheckerState → CheckerState
  | [], st => st
  | s :: rest, st =>
      visitStmts ctx source_lines current_file rest
        (visitStmt ctx source_lines current_file s st)
end

/-! ## `check_file` -/

set_option linter.unusedVariables false in
/-- `check_file(filepath, strict)`: absolutize the path, open it (an
`OSError` propagates to the caller, modelled as `Except.error`), parse
it (a `SyntaxError` becomes a single finding), then run the checker and
return its error list.  The `strict` parameter is accepted and, as in
the source, never used. -/
def check_file (ctx : Ctx) (filepath : String) (strict : Bool) :
    Except Unit (List Err) :=
  let filepath := ctx.abspath filepath
  match ctx.fs filepath with
  | .ioError => .error ()
  | .src (.syntaxError lineno off msg) =>
      .ok [(lineno.getD 0, off.getD 0, "Syntax Error: " ++ msg)]
  | .src (.parsed tree source_lines) =>
      let st := visitStmts ctx source_lines filepath tree
        { model_definitions := [], errors := [],
          processed_files := [filepath], imported_models := [] }
      .ok st.errors

/-! ## Dictionary lemmas -/

theorem dictFind_dictInsert_self {β : Type} (d : List (String × β)) (k : String)
    (v : β) : dictFind (dictInsert d k v) k = some v := by
  simp [dictFind, dictInsert, List.find?]

theorem dictFind_dictInsert_ne {β : Type} (d : List (String × β)) {k k' : String}
    (v : β) (h : k' ≠ k) : dictFind (dictInsert d k v) k' = dictFind d k' := by
  have hk : (k == k') = false := by
    rw [Bool.eq_false_iff]
    intro hT
    have hkk : k = k' := by simpa using hT
    exact h hkk.symm
  induction d with
  | nil => simp [dictFind, dictInsert, List.find?, hk]
  | cons p rest ih =>
    simp only [dictFind, dictInsert, List.find?, hk] at *
    by_cases hpk : (p.1 == k) = true
    · simp only [List.eraseP_cons, hpk]
      have : (p.1 == k') = false := by
        rw [Bool.eq_false_iff]
        intro hT
        have h1 : p.1 = k := by simpa using hpk
        have h2 : p.1 = k' := by simpa using hT
        exact h (h2 ▸ h1 ▸ rfl)
      simp [List.find?, this]
    · simp only [List.eraseP_cons, Bool.not_eq_true] at *
      rw [Bool.eq_false_iff] at hpk
      simp only [Bool.not_eq_true] at hpk
      rw [hpk]
      simp only [List.find?]
      cases hpk' : (p.1 == k') with
      | true => simp [hpk']
      | false => simpa [hpk'] using ih

theorem dictMem_iff_isSome {β : Type} (d : List (String × β)) (k : String) :
    dictMem d k = (dictFind d k).isSome := rfl

/-! ## Characterisation of `_check_instantiation` -/

/-- The findings that one `_check_instantiation` run appends, as a
function of the class name, its registered fields, the set of supplied
keyword names, and the set of directive-suppressed names. -/
def findingsOf (class_name : String) (fields : List FieldInfo)
    (provided ignored : List String) (lineno col : Nat) : List Err :=
  let required_fields :=
    pySet ((fields.filter fun f => !f.has_default && !f.is_optional).map FieldInfo.name)
  let all_fields := pySet (fields.map FieldInfo.name)
  let missing_required := pyDiff (pyDiff required_fields provided) ignored
  let missing_all := pyDiff (pyDiff all_fields provided) ignored
  let optional_missing :=
    (fields.filter fun f =>
      missing_all.elem f.name && (f.has_default || f.is_optional)).map FieldInfo.name
  let unknown_fields := pyDiff provided all_fields
  (if missing_required.isEmpty then []
   else [(lineno, col, missingMsg class_name (insSort missing_required))])
  ++ (if missing_all.isEmpty then []
      else if optional_missing.isEmpty then []
      else [(lineno, col, optionalMsg class_name (insSort optional_missing))])
  ++ (if unknown_fields.isEmpty then []
      else [(lineno, col, unknownMsg class_name (insSort unknown_fields))])

/-- Pointwise equality of all four fields gives state equality. -/
theorem checkerState_eq {a b : CheckerState}
    (h1 : a.model_definitions = b.model_definitions) (h2 : a.errors = b.errors)
    (h3 : a.processed_files = b.processed_files)
    (h4 : a.imported_models = b.imported_models) : a = b := by
  cases a
  cases b
  simp only at h1 h2 h3 h4
  rw [h1, h2, h3, h4]

theorem check_instantiation_spec (source_lines : List String) (st : CheckerState)
    (class_name : String) (keyword_args : List (Option String)) (lineno col : Nat)
    (hig : (check_ignore_comment source_lines lineno).1 = false)
    (hkw : keyword_args.any Option.isNone = false) :
    (check_instantiation source_lines st class_name keyword_args lineno col).errors =
      st.errors ++
        findingsOf class_name ((dictFind st.model_definitions class_name).getD [])
          (pySet (keyword_args.filterMap id))
          (check_ignore_comment source_lines lineno).2 lineno col := by
  simp only [check_instantiation, findingsOf, hig, Bool.false_eq_true, if_false, hkw]
  split_ifs <;> simp [List.append_assoc]

theorem check_instantiation_keeps (source_lines : List String) (st : CheckerState)
    (class_name : String) (keyword_args : List (Option String)) (lineno col : Nat) :
    (check_instantiation source_lines st class_name keyword_args lineno col).model_definitions
        = st.model_definitions ∧
    (check_instantiation source_lines st class_name keyword_args lineno col).processed_files
        = st.processed_files ∧
    (check_instantiation source_lines st class_name keyword_args lineno col).imported_models
        = st.imported_models := by
  refine ⟨?_, ?_, ?_⟩ <;>
    simp [check_instantiation, apply_ite CheckerState.model_definitions,
      apply_ite CheckerState.processed_files, apply_ite CheckerState.imported_models]

theorem check_instantiation_errors_ext (source_lines : List String)
    (st : CheckerState) (class_name : String)
    (keyword_args : List (Option String)) (lineno col : Nat) :
    ∃ t, (check_instantiation source_lines st class_name keyword_args lineno col).errors
        = st.errors ++ t := by
  by_cases hig : (check_ignore_comment source_lines lineno).1 = true
  · refine ⟨[], ?_⟩
    simp [check_instantiation, hig]
  · rw [Bool.not_eq_true] at hig
    by_cases hkw : keyword_args.any Option.isNone = true
    · refine ⟨[], ?_⟩
      simp [check_instantiation, hig, hkw]
    · rw [Bool.not_eq_true] at hkw
      exact ⟨_, check_instantiation_spec _ _ _ _ _ _ hig hkw⟩

/-! ## `mergeDefs` and `_load_imported_model` lemmas -/

theorem mergeDefs_keeps (model_name : String)
    (tempDefs : List (String × List FieldInfo)) (st : CheckerState) :
    (mergeDefs model_name tempDefs st).errors = st.errors ∧
    (mergeDefs model_name tempDefs st).processed_files = st.processed_files ∧
    (mergeDefs model_name tempDefs st).imported_models = st.imported_models := by
  induction tempDefs generalizing st with
  | nil => exact ⟨rfl, rfl, rfl⟩
  | cons p rest ih =>
    simp only [mergeDefs, List.foldl_cons] at *
    split
    · exact ih _
    · exact ih _

/-- The merge loop never replaces an entry that is already present:
first-writer wins. -/
theorem mergeDefs_find_of_mem (model_name : String)
    (tempDefs : List (String × List FieldInfo)) (st : CheckerState)
    {m : String} (hm : dictMem st.model_definitions m = true) (hmn : m ≠ model_name) :
    dictFind (mergeDefs model_name tempDefs st).model_definitions m
      = dictFind st.model_definitions m := by
  induction tempDefs generalizing st with
  | nil => rfl
  | cons p rest ih =>
    simp only [mergeDefs, List.foldl_cons] at *
    split
    · rename_i hcond
      have hpm : p.1 ≠ m := by
        intro hpm
        rcases Bool.or_eq_true_iff.mp hcond with h | h
        · have hpn : p.1 = model_name := by simpa using h
          exact hmn (by rw [← hpm]; exact hpn)
        · rw [Bool.not_eq_true'] at h
          rw [hpm, hm] at h
          simp at h
      have hfind : dictFind (dictInsert st.model_definitions p.1 p.2) m
          = dictFind st.model_definitions m :=
        dictFind_dictInsert_ne _ _ (fun h => hpm h.symm)
      have hm' : dictMem (dictInsert st.model_definitions p.1 p.2) m = true := by
        show (dictFind (dictInsert st.model_definitions p.1 p.2) m).isSome = true
        rw [hfind]
        exact hm
      rw [ih { st with model_definitions := dictInsert st.model_definitions p.1 p.2 } hm']
      exact hfind
    · exact ih st hm

theorem load_keeps_errors (ctx : Ctx) (current_file model_name : String)
    (st : CheckerState) :
    (load_imported_model ctx current_file model_name st).errors = st.errors := by
  simp only [load_imported_model]
  split
  · rfl
  · split
    · rfl
    · split
      · rfl
      · split
        · rfl
        · split
          · rfl
          · rfl
          · exact (mergeDefs_keeps _ _ _).1

theorem load_keeps_imported (ctx : Ctx) (current_file model_name : String)
    (st : CheckerState) :
    (load_imported_model ctx current_file model_name st).imported_models
      = st.imported_models := by
  simp only [load_imported_model]
  split
  · rfl
  · split
    · rfl
    · split
      · rfl
      · split
        · rfl
        · split
          · rfl
          · rfl
          · exact (mergeDefs_keeps _ _ _).2.2

/-- Cross-file merging never replaces a registration that already
exists: once a class name is in the registry, `_load_imported_model`
leaves its field list untouched. -/
theorem load_find_of_mem (ctx : Ctx) (current_file model_name : String)
    (st : CheckerState) {m : String}
    (hm : dictMem st.model_definitions m = true) :
    dictFind (load_imported_model ctx current_file model_name st).model_definitions m
      = dictFind st.model_definitions m := by
  simp only [load_imported_model]
  split
  · rfl
  · rename_i hnm
    rw [Bool.not_eq_true] at hnm
    have hmn : m ≠ model_name := by
      intro h
      rw [h, hnm] at hm
      simp at hm
    split
    · rfl
    · split
      · rfl
      · split
        · rfl
        · split
          · rfl
          · rfl
          · exact mergeDefs_find_of_mem _ _ _ hm hmn

/-- `visit_ImportFrom` only touches `imported_models`. -/
theorem visit_ImportFrom_keeps (module : Option String)
    (names : List (String × Option String)) (st : CheckerState) :
    (visit_ImportFrom module names st).model_definitions = st.model_definitions ∧
    (visit_ImportFrom module names st).errors = st.errors ∧
    (visit_ImportFrom module names st).processed_files = st.processed_files := by
  cases module with
  | none => exact ⟨rfl, rfl, rfl⟩
  | some module_path =>
    simp only [visit_ImportFrom]
    induction names generalizing st with
    | nil => exact ⟨rfl, rfl, rfl⟩
    | cons p rest ih =>
      simp only [List.foldl_cons]
      split
      · exact ih st
      · exact ih _

/-- `visit_ClassDef` only touches `model_definitions`. -/
theorem visit_ClassDef_keeps (name : String) (bases : List PyExpr)
    (body : List Stmt) (st : CheckerState) :
    (visit_ClassDef name bases body st).errors = st.errors ∧
    (visit_ClassDef name bases body st).processed_files = st.processed_files ∧
    (visit_ClassDef name bases body st).imported_models = st.imported_models := by
  simp only [visit_ClassDef]
  split
  · exact ⟨rfl, rfl, rfl⟩
  · exact ⟨rfl, rfl, rfl⟩

/-- Composing two error-extending steps extends errors. -/
theorem errExt_trans {a b c : CheckerState}
    (h1 : ∃ t, b.errors = a.errors ++ t) (h2 : ∃ t, c.errors = b.errors ++ t) :
    ∃ t, c.errors = a.errors ++ t := by
  rcases h1 with ⟨t1, h1⟩
  rcases h2 with ⟨t2, h2⟩
  exact ⟨t1 ++ t2, by rw [h2, h1, List.append_assoc]⟩

/-- The expression traversal of the main checker only ever appends to
the error list (findings are emitted in discovery order). -/
theorem visitExpr_errors_ext_all (ctx : Ctx) (source_lines : List String)
    (current_file : String) :
    (∀ e st, ∃ t, (visitExpr ctx source_lines current_file e st).errors = st.errors ++ t) ∧
    (∀ es st, ∃ t, (visitExprs ctx source_lines current_file es st).errors = st.errors ++ t) ∧
    (∀ kws st, ∃ t,
      (visitKeywords ctx source_lines current_file kws st).errors = st.errors ++ t) := by
  refine visitExpr.mutual_induct ctx source_lines current_file
    (fun e st => ∃ t, (visitExpr ctx source_lines current_file e st).errors = st.errors ++ t)
    (fun es st => ∃ t, (visitExprs ctx source_lines current_file es st).errors = st.errors ++ t)
    (fun kws st => ∃ t,
      (visitKeywords ctx source_lines current_file kws st).errors = st.errors ++ t)
    ?_ ?_ ?_ ?_ ?_ ?_ ?_ ?_ ?_ ?_
  · intro id st
    exact ⟨[], by simp [visitExpr]⟩
  · intro st
    exact ⟨[], by simp [visitExpr]⟩
  · intro v attr st ih
    rcases ih with ⟨t, ht⟩
    exact ⟨t, by simp only [visitExpr]; exact ht⟩
  · intro v s st ih1 ih2
    have := errExt_trans ih1 ih2
    rcases this with ⟨t, ht⟩
    exact ⟨t, by simp only [visitExpr]; exact ht⟩
  · intro tt b o st ih1 ih2 ih3
    have := errExt_trans (errExt_trans ih1 ih2) ih3
    rcases this with ⟨t, ht⟩
    exact ⟨t, by simp only [visitExpr]; exact ht⟩
  · intro func args keywords lineno col st
    intro st1 ih1 ih2 ih3
    have h0 : ∃ t, st1.errors = st.errors ++ t := by
      show ∃ t, (match func_class_name func with
        | some class_name =>
            let st' := load_imported_model ctx current_file class_name st
            if dictMem st'.model_definitions class_name = true then
              check_instantiation source_lines st' class_name
                (List.map Prod.fst keywords) lineno col
            else st'
        | none => st).errors = st.errors ++ t
      cases func_class_name func with
      | none => exact ⟨[], by simp⟩
      | some class_name =>
        simp only
        split
        · refine errExt_trans (b := load_imported_model ctx current_file class_name st)
            ⟨[], by rw [load_keeps_errors, List.append_nil]⟩ ?_
          exact check_instantiation_errors_ext _ _ _ _ _ _
        · exact ⟨[], by rw [load_keeps_errors, List.append_nil]⟩
    have := errExt_trans (errExt_trans (errExt_trans h0 ih1) ih2) ih3
    rcases this with ⟨t, ht⟩
    exact ⟨t, by simp only [visitExpr]; exact ht⟩
  · intro st
    exact ⟨[], by simp [visitExprs]⟩
  · intro e rest st ih1 ih2
    have := errExt_trans ih1 ih2
    rcases this with ⟨t, ht⟩
    exact ⟨t, by simp only [visitExprs]; exact ht⟩
  · intro st
    exact ⟨[], by simp [visitKeywords]⟩
  · intro kw rest st ih1 ih2
    have := errExt_trans ih1 ih2
    rcases this with ⟨t, ht⟩
    exact ⟨t, by simp only [visitKeywords]; exact ht⟩

/-- The statement traversal of the main checker only ever appends to the
error list. -/
theorem visitStmt_errors_ext_all (ctx : Ctx) (source_lines : List String)
    (current_file : String) :
    (∀ s st, ∃ t, (visitStmt ctx source_lines current_file s st).errors = st.errors ++ t) ∧
    (∀ ss st, ∃ t,
      (visitStmts ctx source_lines current_file ss st).errors = st.errors ++ t) := by
  refine visitStmt.mutual_induct ctx source_lines current_file
    (fun s st => ∃ t, (visitStmt ctx source_lines current_file s st).errors = st.errors ++ t)
    (fun ss st => ∃ t,
      (visitStmts ctx source_lines current_file ss st).errors = st.errors ++ t)
    ?_ ?_ ?_ ?_ ?_ ?_ ?_
  · intro module names st
    exact ⟨[], by
      simp only [visitStmt]
      rw [(visit_ImportFrom_keeps module names st).2.1, List.append_nil]⟩
  · intro name bases body st ih
    have h0 : ∃ t, (visit_ClassDef name bases body st).errors = st.errors ++ t :=
      ⟨[], by rw [(visit_ClassDef_keeps name bases body st).1, List.append_nil]⟩
    have h1 := (visitExpr_errors_ext_all ctx source_lines current_file).2.1 bases
      (visit_ClassDef name bases body st)
    have := errExt_trans (errExt_trans h0 h1) ih
    rcases this with ⟨t, ht⟩
    exact ⟨t, by simp only [visitStmt]; exact ht⟩
  · intro target ann st
    have h1 := (visitExpr_errors_ext_all ctx source_lines current_file).1 ann st
    rcases h1 with ⟨t, ht⟩
    exact ⟨t, by simp only [visitStmt]; exact ht⟩
  · intro target ann st v
    have h1 := (visitExpr_errors_ext_all ctx source_lines current_file).1 ann st
    have h2 := (visitExpr_errors_ext_all ctx source_lines current_file).1 v
      (visitExpr ctx source_lines current_file ann st)
    have := errExt_trans h1 h2
    rcases this with ⟨t, ht⟩
    exact ⟨t, by simp only [visitStmt]; exact ht⟩
  · intro e st
    have h1 := (visitExpr_errors_ext_all ctx source_lines current_file).1 e st
    rcases h1 with ⟨t, ht⟩
    exact ⟨t, by simp only [visitStmt]; exact ht⟩
  · intro st
    exact ⟨[], by simp [visitStmts]⟩
  · intro s rest st ih1 ih2
    have := errExt_trans ih1 ih2
    rcases this with ⟨t, ht⟩
    exact ⟨t, by simp only [visitStmts]; exact ht⟩

/-! ## Small auxiliary lemmas for the claims -/

theorem any_isNone_false {ks : List (Option String)}
    (h : ∀ k ∈ ks, k.isSome = true) : ks.any Option.isNone = false := by
  rw [List.any_eq_false]
  intro k hk
  have hs := h k hk
  cases k with
  | none => simp at hs
  | some v => simp [Option.isNone]

theorem isEmpty_false_of_ne_nil {α : Type} {l : List α} (h : l ≠ []) :
    l.isEmpty = false := by
  cases l with
  | nil => exact absurd rfl h
  | cons x xs => rfl

/-- `names − (names − t) = t` whenever `t ⊆ names`, on canonical sorted
set representations. -/
theorem pyDiff_pyDiff_of_sub {names t : List String} (hn : StrSorted names)
    (ht : StrSorted t) (hsub : ∀ x ∈ t, x ∈ names) :
    pyDiff names (pyDiff names t) = t := by
  apply sorted_mem_ext (sorted_pyDiff _ hn) ht
  intro x
  rw [mem_pyDiff, mem_pyDiff]
  constructor
  · rintro ⟨hx, hnd⟩
    by_cases hxt : x ∈ t
    · exact hxt
    · exact absurd ⟨hx, hxt⟩ hnd
  · intro hx
    exact ⟨hsub x hx, fun hc => hc.2 hx⟩

/-! ## Substring lemmas for the directive parser -/

theorem containsChars_of_leadsWith {sub s : List Char}
    (h : leadsWith sub s = true) : containsChars sub s = true := by
  cases s with
  | nil =>
    cases sub with
    | nil => rfl
    | cons p ps => simp [leadsWith] at h
  | cons c cs => simp [containsChars, h]

theorem containsChars_tail_pattern {x : Char} {p s : List Char}
    (h : containsChars (x :: p) s = true) : containsChars p s = true := by
  induction s with
  | nil => simp [containsChars] at h
  | cons c cs ih =>
    simp only [containsChars, Bool.or_eq_true] at h ⊢
    rcases h with h | h
    · simp only [leadsWith, Bool.and_eq_true] at h
      right
      exact containsChars_of_leadsWith h.2
    · right
      exact ih h

theorem containsChars_drop_pattern {p s : List Char} (q : List Char)
    (h : containsChars (q ++ p) s = true) : containsChars p s = true := by
  induction q with
  | nil => simpa using h
  | cons x xs ih => exact ih (containsChars_tail_pattern h)

/-- If `s` contains the pattern `h0 :: mt`, then everything after the
first occurrence of the single character `h0` still contains `mt`. -/
theorem containsChars_afterFirst {h0 : Char} {mt s : List Char}
    (h : containsChars (h0 :: mt) s = true) :
    containsChars mt (dropAfterFirst [h0] s) = true := by
  induction s with
  | nil => simp [containsChars] at h
  | cons c cs ih =>
    have hlw : leadsWith [h0] (c :: cs) = (h0 == c) := by
      simp [leadsWith]
    simp only [containsChars, Bool.or_eq_true] at h
    rcases h with h | h
    · simp only [leadsWith, Bool.and_eq_true] at h
      simp only [dropAfterFirst, hlw, h.1, if_true]
      have : (c :: cs).drop [h0].length = cs := by simp
      rw [this]
      exact containsChars_of_leadsWith h.2
    · by_cases hc : (h0 == c) = true
      · simp only [dropAfterFirst, hlw, hc, if_true]
        have : (c :: cs).drop [h0].length = cs := by simp
        rw [this]
        exact containsChars_tail_pattern h
      · simp only [dropAfterFirst, hlw, hc, if_false, Bool.false_eq_true]
        exact ih h

/-- If a field-scoped marker occurs in a line, then the comment part
(everything after the first `#`) contains `ignore-field`; this is why
the inner guard of `_check_ignore_comment` cannot fail once the outer
one matched. -/
theorem fieldMarker_comment_part {line : String} (h : fieldMarkerIn line = true) :
    pyContains (pyAfterFirst line "#") "ignore-field" = true := by
  have hdata : (pyAfterFirst line "#").data = dropAfterFirst ['#'] line.data := rfl
  rw [pyContains, hdata]
  rw [fieldMarkerIn, Bool.or_eq_true] at h
  rcases h with h | h
  · have hdec : ("# pydantic-touchall: ignore-field").data
        = '#' :: ((" pydantic-touchall: ").data ++ ("ignore-field").data) := by decide
    rw [pyContains, hdec] at h
    exact containsChars_drop_pattern _ (containsChars_afterFirst h)
  · have hdec : ("# touchall: ignore-field").data
        = '#' :: ((" touchall: ").data ++ ("ignore-field").data) := by decide
    rw [pyContains, hdec] at h
    exact containsChars_drop_pattern _ (containsChars_afterFirst h)

/-! ## `scanIgnoreLines` case lemmas -/

theorem scanIgnoreLines_field {line : String} (rest : List String)
    (h : fieldMarkerIn line = true) :
    scanIgnoreLines (line :: rest) = (false, parseIgnoreFields line) := by
  have h2 := fieldMarker_comment_part h
  simp [scanIgnoreLines, h, h2, parseIgnoreFields]

theorem scanIgnoreLines_bare {line : String} (rest : List String)
    (h1 : fieldMarkerIn line = false) (h2 : bareMarkerIn line = true) :
    scanIgnoreLines (line :: rest) = (true, []) := by
  simp [scanIgnoreLines, h1, h2]

theorem scanIgnoreLines_skip {line : String} (rest : List String)
    (h1 : fieldMarkerIn line = false) (h2 : bareMarkerIn line = false) :
    scanIgnoreLines (line :: rest) = scanIgnoreLines rest := by
  simp [scanIgnoreLines, h1, h2]

/-- For a line number inside the file, `_check_ignore_comment` scans
exactly the call's own line followed (when it exists) by the line
above. -/
theorem check_ignore_comment_eq_scan (source_lines : List String) (lineno : Nat)
    (h1 : 1 ≤ lineno) (h2 : lineno ≤ source_lines.length) :
    check_ignore_comment source_lines lineno =
      scanIgnoreLines ([source_lines.getD (lineno - 1) ""] ++
        (if 1 < lineno then [source_lines.getD (lineno - 2) ""] else [])) := by
  have hne : source_lines.isEmpty = false := by
    cases source_lines with
    | nil => simp at h2; omega
    | cons x xs => rfl
  have hl0 : (lineno == 0) = false := by
    cases lineno with
    | zero => omega
    | succ n => rfl
  have hlt : (source_lines.length < lineno) = False := by
    simp
    omega
  have h0 : 0 < lineno := h1
  simp [check_ignore_comment, hne, hl0, hlt, h0]

/-! ## Filter-commutation for field-scoped suppression -/

theorem bool_and_shuffle (a b c : Bool) : ((a && !b) && c) = (!b && (a && c)) := by
  cases a <;> cases b <;> cases c <;> rfl

/-- Removing the suppressed names from `missing_all` before the
optional-field filter is the same as filtering them out of the
unsuppressed optional-missing list afterwards. -/
theorem optional_missing_filter (fields : List FieldInfo) (ma0 ign : List String) :
    (fields.filter fun f =>
        (pyDiff ma0 ign).elem f.name && (f.has_default || f.is_optional)).map FieldInfo.name
      = ((fields.filter fun f =>
          ma0.elem f.name && (f.has_default || f.is_optional)).map FieldInfo.name).filter
            (fun nm => !(ign.elem nm)) := by
  rw [List.filter_map, List.filter_filter]
  apply congrArg (List.map FieldInfo.name)
  apply List.filter_congr
  intro f hf
  rw [elem_pyDiff]
  exact bool_and_shuffle _ _ _

/-! ## Inert traversal lemmas -/

theorem visitExpr_nameE (ctx : Ctx) (source_lines : List String)
    (current_file : String) (id : String) (st : CheckerState) :
    visitExpr ctx source_lines current_file (PyExpr.nameE id) st = st := by
  simp [visitExpr]

theorem visitExprs_names_id (ctx : Ctx) (source_lines : List String)
    (current_file : String) (ids : List String) (st : CheckerState) :
    visitExprs ctx source_lines current_file (ids.map PyExpr.nameE) st = st := by
  induction ids generalizing st with
  | nil => simp [visitExprs]
  | cons i rest ih =>
    simp only [List.map_cons]
    rw [visitExprs, visitExpr_nameE]
    exact ih st

/-! ## Claims -/

theorem load_of_mem (ctx : Ctx) (current_file model_name : String)
    (st : CheckerState) (h : dictMem st.model_definitions model_name = true) :
    load_imported_model ctx current_file model_name st = st := by
  simp [load_imported_model, h]

/-- C4: a call that passes a spread argument (a keyword with no name,
`**kwargs`) produces no findings whatsoever: `_check_instantiation`
returns the state unchanged, whatever the other keyword arguments and
whatever directive is present. -/
theorem spec_C4 (source_lines : List String) (st : CheckerState)
    (class_name : String) (keyword_args : List (Option String)) (lineno col : Nat)
    (h : none ∈ keyword_args) :
    check_instantiation source_lines st class_name keyword_args lineno col = st := by
  have hkw : keyword_args.any Option.isNone = true := by
    rw [List.any_eq_true]
    exact ⟨none, h, rfl⟩
  simp [check_instantiation, hkw]

/-- Witness for C4 at a concrete call: `User(**data, name=...)` with a
registered single-field model. -/
theorem spec_C4_witness :
    check_instantiation []
      (⟨[("User", [⟨"name", false, false⟩])], [], [], []⟩ : CheckerState)
      "User" [some "name", none] 3 0 =
      (⟨[("User", [⟨"name", false, false⟩])], [], [], []⟩ : CheckerState) :=
  spec_C4 [] _ "User" [some "name", none] 3 0 (by simp)

/-- C8: the directive parser scans the call's own line and then the
line above, in that order (part 1); on a line, the field-scoped marker
decides before the bare marker, and its comma-separated tokens are
stripped with empty tokens discarded (part 2); a bare marker line
suppresses everything (part 3); a line with neither marker defers to
the next candidate line, and no matching line means no suppression
(parts 4 and 5). -/
theorem spec_C8 :
    (∀ (source_lines : List String) (lineno : Nat), 1 ≤ lineno →
        lineno ≤ source_lines.length →
        check_ignore_comment source_lines lineno =
          scanIgnoreLines ([source_lines.getD (lineno - 1) ""] ++
            (if 1 < lineno then [source_lines.getD (lineno - 2) ""] else []))) ∧
    (∀ (line : String) (rest : List String), fieldMarkerIn line = true →
        scanIgnoreLines (line :: rest) =
          (false, pySet (((splitOnComma (pyStrip (pyAfterFirst
            (pyAfterFirst line "#") "ignore-field"))).map pyStrip).filter
              (fun s => !(s == ""))))) ∧
    (∀ (line : String) (rest : List String), fieldMarkerIn line = false →
        bareMarkerIn line = true → scanIgnoreLines (line :: rest) = (true, [])) ∧
    (∀ (line : String) (rest : List String), fieldMarkerIn line = false →
        bareMarkerIn line = false →
        scanIgnoreLines (line :: rest) = scanIgnoreLines rest) ∧
    scanIgnoreLines [] = (false, []) := by
  refine ⟨check_ignore_comment_eq_scan, ?_,
    fun line rest h1 h2 => scanIgnoreLines_bare rest h1 h2,
    fun line rest h1 h2 => scanIgnoreLines_skip rest h1 h2, rfl⟩
  intro line rest h
  rw [scanIgnoreLines_field rest h]
  rfl

/-- Witness for C8 on concrete lines: a field-scoped directive line
(with spaces and an empty token), a bare directive line, and a
non-directive first line deferring to the directive line above. -/
theorem spec_C8_witness :
    check_ignore_comment ["u = M()  # touchall: ignore-field a , b,"] 1 =
      scanIgnoreLines (["u = M()  # touchall: ignore-field a , b,"] ++
        (if 1 < 1 then [List.getD ["u = M()  # touchall: ignore-field a , b,"] 0 ""]
         else [])) ∧
    scanIgnoreLines ["u = M()  # touchall: ignore-field a , b,"] =
      (false, pySet (((splitOnComma (pyStrip (pyAfterFirst
        (pyAfterFirst "u = M()  # touchall: ignore-field a , b," "#")
          "ignore-field"))).map pyStrip).filter (fun s => !(s == "")))) ∧
    scanIgnoreLines ["w = M()  # pydantic-touchall: ignore", "x"] = (true, []) ∧
    scanIgnoreLines ["plain line", "# touchall: ignore"] =
      scanIgnoreLines ["# touchall: ignore"] := by
  refine ⟨spec_C8.1 _ 1 (by decide) (by decide), spec_C8.2.1 _ _ (by decide),
    spec_C8.2.2.1 _ _ (by decide) (by decide), spec_C8.2.2.2.1 _ _ (by decide) (by decide)⟩

/-- C10: an unreadable input file raises to the caller (part 1); a
syntax error in the input file becomes a single finding (part 2); an
unreadable or unparseable *imported* file is silently skipped —
`_load_imported_model` only records the path as processed and changes
nothing else (part 3). -/
theorem spec_C10 :
    (∀ (ctx : Ctx) (p : String) (s : Bool), ctx.fs (ctx.abspath p) = .ioError →
        check_file ctx p s = .error ()) ∧
    (∀ (ctx : Ctx) (p : String) (s : Bool) (l c : Option Nat) (m : String),
        ctx.fs (ctx.abspath p) = .src (.syntaxError l c m) →
        check_file ctx p s = .ok [(l.getD 0, c.getD 0, "Syntax Error: " ++ m)]) ∧
    (∀ (ctx : Ctx) (current_file model_name module_path file_path : String)
        (st : CheckerState),
        dictMem st.model_definitions model_name = false →
        dictFind st.imported_models model_name = some module_path →
        ctx.resolve module_path current_file = some file_path →
        file_path ∉ st.processed_files →
        (ctx.fs file_path = .ioError ∨
          ∃ l c m, ctx.fs file_path = .src (.syntaxError l c m)) →
        load_imported_model ctx current_file model_name st
          = { st with processed_files := file_path :: st.processed_files }) := by
  refine ⟨?_, ?_, ?_⟩
  · intro ctx p s h
    simp [check_file, h]
  · intro ctx p s l c m h
    simp [check_file, h]
  · intro ctx current_file model_name module_path file_path st h0 h1 h2 h3 h4
    rcases h4 with h4 | ⟨l, c, m, h4⟩ <;>
      simp [load_imported_model, h0, h1, h2, h3, h4]

/-- Witness for C10 at a concrete environment: one unreadable input,
one syntactically invalid input, and one unresolvable import target. -/
theorem spec_C10_witness :
    check_file { abspath := id, resolve := fun _ _ => none, fs := fun _ => .ioError }
      "/nope.py" true = .error () ∧
    check_file
      { abspath := id, resolve := fun _ _ => none,
        fs := fun _ => .src (.syntaxError (some 7) none "invalid syntax") }
      "/bad.py" false = .ok [(7, 0, "Syntax Error: " ++ "invalid syntax")] ∧
    load_imported_model
      { abspath := id, resolve := fun _ _ => some "/b.py", fs := fun _ => .ioError }
      "/a.py" "M"
      { model_definitions := [], errors := [], processed_files := ["/a.py"],
        imported_models := [("M", "b")] }
      = { model_definitions := [], errors := [],
          processed_files := ["/b.py", "/a.py"], imported_models := [("M", "b")] } := by
  refine ⟨spec_C10.1 _ "/nope.py" true rfl,
    spec_C10.2.1 _ "/bad.py" false (some 7) none "invalid syntax" rfl, ?_⟩
  exact spec_C10.2.2 _ "/a.py" "M" "b" "/b.py" _ rfl rfl rfl (by decide) (Or.inl rfl)

/-- A trivial environment: nothing resolves, nothing is readable. -/
def ctx6 : Ctx where
  abspath := id
  resolve := fun _ _ => none
  fs := fun _ => .ioError

/-- A file declaring the same model class name twice with different
field lists. -/
def mod6 : PyModule :=
  [ .classDef "M" [.nameE "BaseModel"] [.annAssign (some "a") (.nameE "str") none],
    .classDef "M" [.nameE "BaseModel"] [] ]

/-- Counterexample to C6: when the same class name is declared twice in
the analysed file, the *second* (later) declaration's field list ends up
in the registry — a later local class declaration does replace the
first-seen definition, so "once registered, no later discovery replaces
its field list" is false. -/
theorem spec_C6_counterexample :
    dictFind (visitStmts ctx6 [] "/f.py" mod6
      (⟨[], [], ["/f.py"], []⟩ : CheckerState)).model_definitions "M"
      = some [] ∧
    some ([] : List FieldInfo)
      ≠ some [({ name := "a", has_default := false, is_optional := false } : FieldInfo)] := by
  exact ⟨rfl, by decide⟩

/-- C6 (amended): within one run the registry holds one field list per
class name; a *cross-file merge* never replaces an entry that is already
registered (first-seen wins across files), but a later *local class
declaration* of the same name overwrites the registered field list with
its own. -/
theorem spec_C6_amended :
    (∀ (ctx : Ctx) (current_file model_name : String) (st : CheckerState)
        (m : String), dictMem st.model_definitions m = true →
        dictFind (load_imported_model ctx current_file model_name st).model_definitions m
          = dictFind st.model_definitions m) ∧
    (∀ (name : String) (bases : List PyExpr) (body : List Stmt) (st : CheckerState),
        bases.any is_model_base = true →
        dictFind (visit_ClassDef name bases body st).model_definitions name
          = some (extract_fields body)) := by
  constructor
  · intro ctx current_file model_name st m hm
    exact load_find_of_mem ctx current_file model_name st hm
  · intro name bases body st h
    simp [visit_ClassDef, h, dictFind_dictInsert_self]

/-- Witness for C6 (amended): a registered entry survives a cross-file
load of another name, and a repeated local declaration overwrites. -/
theorem spec_C6_amended_witness :
    dictFind (load_imported_model ctx6 "/f.py" "N"
      (⟨[("M", [])], [], [], []⟩ : CheckerState)).model_definitions "M"
      = dictFind ([("M", ([] : List FieldInfo))]) "M" ∧
    dictFind (visit_ClassDef "M" [PyExpr.nameE "BaseModel"]
      [Stmt.annAssign (some "a") (PyExpr.nameE "str") none]
      (⟨[("M", [])], [], [], []⟩ : CheckerState)).model_definitions "M"
      = some (extract_fields [Stmt.annAssign (some "a") (PyExpr.nameE "str") none]) := by
  exact ⟨spec_C6_amended.1 ctx6 "/f.py" "N" _ "M" rfl,
    spec_C6_amended.2 "M" _ _ _ rfl⟩

/-- A file in which traversal order differs from source-position order:
`M1() if M2() else 0` — the AST field order of a conditional expression
is `(test, body, orelse)`, so the test `M2()` (line 10, column 13) is
visited before the body `M1()` (line 10, column 4). -/
def mod7 : PyModule :=
  [ .classDef "M1" [.nameE "BaseModel"] [.annAssign (some "a") (.nameE "int") none],
    .classDef "M2" [.nameE "BaseModel"] [.annAssign (some "b") (.nameE "int") none],
    .exprStmt (.ifE (.callE (.nameE "M2") [] [] 10 13)
      (.callE (.nameE "M1") [] [] 10 4) .constE) ]

def ctx7 : Ctx where
  abspath := id
  resolve := fun _ _ => none
  fs := fun p => if p = "/x.py" then .src (.parsed mod7 []) else .ioError

/-- `(line, column)` order on findings. -/
def posLe (a b : Err) : Prop := a.1 < b.1 ∨ (a.1 = b.1 ∧ a.2.1 ≤ b.2.1)

/-- Counterexample to C7: `check_file` returns the findings of `mod7`
in traversal order `[(10, 13), (10, 4)]`, which is not sorted by
`(line, column)` ascending. -/
theorem spec_C7_counterexample :
    check_file ctx7 "/x.py" true =
      .ok [(10, 13, "Error: M2の必須フィールドが不足: b"),
           (10, 4, "Error: M1の必須フィールドが不足: a")] ∧
    ¬ List.Chain' posLe
        [((10 : Nat), (13 : Nat), "Error: M2の必須フィールドが不足: b"),
         ((10 : Nat), (4 : Nat), "Error: M1の必須フィールドが不足: a")] := by
  constructor
  · rfl
  · intro h
    have h2 := List.chain'_pair.mp h
    simp [posLe] at h2

/-- C7 (amended): the engine returns the findings in discovery
(pre-order traversal) order — the error list of the final state extends
the initial error list by appending, so findings are never reordered or
dropped — but it is not in general sorted by `(line, column)`. -/
theorem spec_C7_amended (ctx : Ctx) (source_lines : List String)
    (current_file : String) (stmts : List Stmt) (st : CheckerState) :
    ∃ t, (visitStmts ctx source_lines current_file stmts st).errors
      = st.errors ++ t :=
  (visitStmt_errors_ext_all ctx source_lines current_file).2 stmts st

/-- C1: for a model whose fields are all required, a call supplying
keyword arguments for exactly all of them (no directive, no spread)
yields zero findings (part 1); a call omitting a non-empty subset `T`
of them yields exactly one missing-required finding whose message names
exactly `T`, sorted lexically and comma-joined (part 2). -/
theorem spec_C1 (source_lines : List String) (st : CheckerState) (class_name : String)
    (fields : List FieldInfo) (ks ks' : List (Option String)) (T : List String)
    (lineno col : Nat)
    (h1 : dictFind st.model_definitions class_name = some fields)
    (h2 : ∀ f ∈ fields, f.has_default = false ∧ f.is_optional = false)
    (h3 : check_ignore_comment source_lines lineno = (false, [])) :
    ((∀ k ∈ ks, k.isSome = true) →
      pySet (ks.filterMap id) = pySet (fields.map FieldInfo.name) →
      check_instantiation source_lines st class_name ks lineno col = st) ∧
    ((∀ k ∈ ks', k.isSome = true) →
      pySet T ≠ [] →
      (∀ x ∈ pySet T, x ∈ pySet (fields.map FieldInfo.name)) →
      pySet (ks'.filterMap id)
        = pyDiff (pySet (fields.map FieldInfo.name)) (pySet T) →
      (check_instantiation source_lines st class_name ks' lineno col).errors
        = st.errors ++ [(lineno, col, missingMsg class_name (pySet T))]) := by
  have hig : (check_ignore_comment source_lines lineno).1 = false := by rw [h3]
  have hig2 : (check_ignore_comment source_lines lineno).2 = [] := by rw [h3]
  have hreq : fields.filter (fun f => !f.has_default && !f.is_optional) = fields := by
    rw [List.filter_eq_self]
    intro f hf
    rcases h2 f hf with ⟨hd, ho⟩
    rw [hd, ho]
    rfl
  constructor
  · intro hA1 hA2
    have hkw := any_isNone_false hA1
    have herr := check_instantiation_spec source_lines st class_name ks lineno col hig hkw
    rw [h1] at herr
    simp only [Option.getD_some] at herr
    rw [hig2, hA2] at herr
    have hzero : findingsOf class_name fields
        (pySet (fields.map FieldInfo.name)) [] lineno col = [] := by
      simp only [findingsOf, hreq]
      have e1 : pyDiff (pySet (fields.map FieldInfo.name))
          (pySet (fields.map FieldInfo.name)) = [] :=
        pyDiff_eq_nil (fun x hx => hx)
      rw [e1]
      simp [pyDiff]
    rw [hzero, List.append_nil] at herr
    rcases check_instantiation_keeps source_lines st class_name ks lineno col with
      ⟨k1, k2, k3⟩
    exact checkerState_eq k1 herr k2 k3
  · intro hB1 hB2 hB3 hB4
    have hkw := any_isNone_false hB1
    have herr := check_instantiation_spec source_lines st class_name ks' lineno col hig hkw
    rw [h1] at herr
    simp only [Option.getD_some] at herr
    rw [hig2, hB4] at herr
    rw [herr]
    congr 1
    have hN := sorted_pySet (fields.map FieldInfo.name)
    have ht := sorted_pySet T
    have hdd : pyDiff (pySet (fields.map FieldInfo.name))
        (pyDiff (pySet (fields.map FieldInfo.name)) (pySet T)) = pySet T :=
      pyDiff_pyDiff_of_sub hN ht hB3
    simp only [findingsOf, hreq, pyDiff_nil, hdd]
    have hTne : (pySet T).isEmpty = false := isEmpty_false_of_ne_nil hB2
    rw [hTne]
    have hopt : (fields.filter fun f =>
        (pySet T).elem f.name && (f.has_default || f.is_optional)) = [] := by
      rw [List.filter_eq_nil_iff]
      intro f hf
      rcases h2 f hf with ⟨hd, ho⟩
      rw [hd, ho]
      simp
    rw [hopt]
    have hunk : pyDiff (pyDiff (pySet (fields.map FieldInfo.name)) (pySet T))
        (pySet (fields.map FieldInfo.name)) = [] :=
      pyDiff_eq_nil (fun x hx => (mem_pyDiff.mp hx).1)
    rw [hunk]
    rw [insSort_of_sorted ht]
    simp

/-- Witness for C1: a two-required-field model, one call supplying both
fields, one call omitting `b`. -/
theorem spec_C1_witness :
    check_instantiation []
      (⟨[("User", [⟨"a", false, false⟩, ⟨"b", false, false⟩])], [], [], []⟩ : CheckerState)
      "User" [some "a", some "b"] 5 0 =
      (⟨[("User", [⟨"a", false, false⟩, ⟨"b", false, false⟩])], [], [], []⟩ : CheckerState) ∧
    (check_instantiation []
      (⟨[("User", [⟨"a", false, false⟩, ⟨"b", false, false⟩])], [], [], []⟩ : CheckerState)
      "User" [some "a"] 5 0).errors
      = [] ++ [(5, 0, missingMsg "User" (pySet ["b"]))] := by
  have h := spec_C1 []
    (⟨[("User", [⟨"a", false, false⟩, ⟨"b", false, false⟩])], [], [], []⟩ : CheckerState)
    "User" [⟨"a", false, false⟩, ⟨"b", false, false⟩]
    [some "a", some "b"] [some "a"] ["b"] 5 0 rfl (by decide) rfl
  exact ⟨h.1 (by decide) rfl, h.2 (by decide) (by decide) (by decide) rfl⟩

/-- C2: a field with a default or an `Optional` annotation that is
omitted from a call (no directive, no spread) is named in exactly one
unused-optional finding and never in a missing-required finding
(part 1); and the engine entry point ignores the strict flag entirely
(part 2). -/
theorem spec_C2 (source_lines : List String) (st : CheckerState) (class_name : String)
    (fields : List FieldInfo) (ks : List (Option String)) (f : FieldInfo)
    (lineno col : Nat)
    (h1 : dictFind st.model_definitions class_name = some fields)
    (hnd : (fields.map FieldInfo.name).Nodup)
    (hf : f ∈ fields)
    (hopt : (f.has_default || f.is_optional) = true)
    (h3 : check_ignore_comment source_lines lineno = (false, []))
    (hks : ∀ k ∈ ks, k.isSome = true)
    (homit : f.name ∉ ks.filterMap id) :
    (∃ mreq opts munk,
      (check_instantiation source_lines st class_name ks lineno col).errors
        = st.errors ++ mreq ++ [(lineno, col, optionalMsg class_name opts)] ++ munk ∧
      f.name ∈ opts ∧
      (mreq = [] ∨ ∃ L, mreq = [(lineno, col, missingMsg class_name L)] ∧ f.name ∉ L) ∧
      (munk = [] ∨ ∃ U, munk = [(lineno, col, unknownMsg class_name U)])) ∧
    (∀ (ctx : Ctx) (p : String) (s1 s2 : Bool),
      check_file ctx p s1 = check_file ctx p s2) := by
  refine ⟨?_, fun ctx p s1 s2 => rfl⟩
  have hig : (check_ignore_comment source_lines lineno).1 = false := by rw [h3]
  have hig2 : (check_ignore_comment source_lines lineno).2 = [] := by rw [h3]
  have hkw := any_isNone_false hks
  have herr := check_instantiation_spec source_lines st class_name ks lineno col hig hkw
  rw [h1] at herr
  simp only [Option.getD_some] at herr
  rw [hig2] at herr
  simp only [findingsOf] at herr
  have hfA : f.name ∈ pySet (fields.map FieldInfo.name) :=
    mem_pySet.mpr (List.mem_map_of_mem FieldInfo.name hf)
  have hfP : f.name ∉ pySet (ks.filterMap id) := by
    intro hx
    exact homit (mem_pySet.mp hx)
  have hma : f.name ∈ pyDiff (pyDiff (pySet (fields.map FieldInfo.name))
      (pySet (ks.filterMap id))) [] := by
    rw [pyDiff_nil]
    exact mem_pyDiff.mpr ⟨hfA, hfP⟩
  have hmane : (pyDiff (pyDiff (pySet (fields.map FieldInfo.name))
      (pySet (ks.filterMap id))) []).isEmpty = false :=
    isEmpty_false_of_ne_nil (List.ne_nil_of_mem hma)
  have hom : f.name ∈ (fields.filter fun g =>
      (pyDiff (pyDiff (pySet (fields.map FieldInfo.name)) (pySet (ks.filterMap id)))
        []).elem g.name && (g.has_default || g.is_optional)).map FieldInfo.name := by
    apply List.mem_map_of_mem
    rw [List.mem_filter]
    refine ⟨hf, ?_⟩
    rw [List.elem_iff.mpr hma, hopt]
    rfl
  have homne : ((fields.filter fun g =>
      (pyDiff (pyDiff (pySet (fields.map FieldInfo.name)) (pySet (ks.filterMap id)))
        []).elem g.name && (g.has_default || g.is_optional)).map
          FieldInfo.name).isEmpty = false :=
    isEmpty_false_of_ne_nil (List.ne_nil_of_mem hom)
  rw [hmane, homne] at herr
  simp only [Bool.false_eq_true, if_false] at herr
  have hfR : f.name ∉ pySet ((fields.filter fun g =>
      !g.has_default && !g.is_optional).map FieldInfo.name) := by
    intro hx
    rcases List.mem_map.mp (mem_pySet.mp hx) with ⟨g, hg, hgn⟩
    rcases List.mem_filter.mp hg with ⟨hgf, hgp⟩
    have hgf2 : g = f := List.inj_on_of_nodup_map hnd hgf hf hgn
    subst hgf2
    rcases Bool.and_eq_true_iff.mp hgp with ⟨hd, ho⟩
    simp only [Bool.not_eq_true'] at hd ho
    rw [hd, ho] at hopt
    simp at hopt
  by_cases hmr : (pyDiff (pyDiff (pySet ((fields.filter fun g =>
      !g.has_default && !g.is_optional).map FieldInfo.name))
      (pySet (ks.filterMap id))) []).isEmpty = true
  · rw [hmr] at herr
    simp only [if_true] at herr
    by_cases hunk : (pyDiff (pySet (ks.filterMap id))
        (pySet (fields.map FieldInfo.name))).isEmpty = true
    · rw [hunk] at herr
      simp only [if_true] at herr
      refine ⟨[], _, [], ?_, mem_insSort.mpr hom, Or.inl rfl, Or.inl rfl⟩
      rw [herr]
      simp
    · rw [Bool.not_eq_true] at hunk
      rw [hunk] at herr
      simp only [Bool.false_eq_true, if_false] at herr
      refine ⟨[], _, [(lineno, col, unknownMsg class_name
        (insSort (pyDiff (pySet (ks.filterMap id))
          (pySet (fields.map FieldInfo.name)))))], ?_,
        mem_insSort.mpr hom, Or.inl rfl, Or.inr ⟨_, rfl⟩⟩
      rw [herr]
      simp
  · rw [Bool.not_eq_true] at hmr
    rw [hmr] at herr
    simp only [Bool.false_eq_true, if_false] at herr
    have hfL : f.name ∉ insSort (pyDiff (pyDiff (pySet ((fields.filter fun g =>
        !g.has_default && !g.is_optional).map FieldInfo.name))
        (pySet (ks.filterMap id))) []) := by
      intro hx
      have hx2 := mem_insSort.mp hx
      rw [pyDiff_nil] at hx2
      exact hfR (mem_pyDiff.mp hx2).1
    by_cases hunk : (pyDiff (pySet (ks.filterMap id))
        (pySet (fields.map FieldInfo.name))).isEmpty = true
    · rw [hunk] at herr
      simp only [if_true] at herr
      refine ⟨_, _, [], ?_, mem_insSort.mpr hom, Or.inr ⟨_, rfl, hfL⟩, Or.inl rfl⟩
      rw [herr]
      simp
    · rw [Bool.not_eq_true] at hunk
      rw [hunk] at herr
      simp only [Bool.false_eq_true, if_false] at herr
      refine ⟨_, _, [(lineno, col, unknownMsg class_name
        (insSort (pyDiff (pySet (ks.filterMap id))
          (pySet (fields.map FieldInfo.name)))))], ?_,
        mem_insSort.mpr hom, Or.inr ⟨_, rfl, hfL⟩, Or.inr ⟨_, rfl⟩⟩
      rw [herr]
      simp

/-- Witness for C2: model `{name: required, address: Optional}`, call
supplying only `name`. -/
theorem spec_C2_witness :
    (∃ mreq opts munk,
      (check_instantiation []
        (⟨[("User", [⟨"name", false, false⟩, ⟨"address", true, true⟩])], [], [], []⟩
          : CheckerState)
        "User" [some "name"] 9 0).errors
        = [] ++ mreq ++ [(9, 0, optionalMsg "User" opts)] ++ munk ∧
      "address" ∈ opts ∧
      (mreq = [] ∨ ∃ L, mreq = [(9, 0, missingMsg "User" L)] ∧ "address" ∉ L) ∧
      (munk = [] ∨ ∃ U, munk = [(9, 0, unknownMsg "User" U)])) ∧
    (∀ (ctx : Ctx) (p : String) (s1 s2 : Bool),
      check_file ctx p s1 = check_file ctx p s2) :=
  spec_C2 []
    (⟨[("User", [⟨"name", false, false⟩, ⟨"address", true, true⟩])], [], [], []⟩
      : CheckerState)
    "User" [⟨"name", false, false⟩, ⟨"address", true, true⟩] [some "name"]
    ⟨"address", true, true⟩ 9 0 rfl (by decide) (by decide) rfl rfl (by decide)
    (by decide)

theorem pySet_nil : pySet [] = [] := rfl

theorem pyDiff_nil_left (b : List String) : pyDiff [] b = [] := rfl

/-- C3: a full-suppression directive (`ignore`) on one of the two
candidate lines makes `_check_instantiation` emit nothing at all
(part 1); a field-scoped directive removes exactly the named fields
from the missing-required set and from the unused-optional list, and
leaves the unknown-field computation untouched — the unknown component
below does not mention the suppressed set `ign` at all (part 2). -/
theorem spec_C3 (source_lines : List String) (st : CheckerState) (class_name : String)
    (fields : List FieldInfo) (ks : List (Option String)) (ign : List String)
    (lineno col : Nat)
    (h1 : dictFind st.model_definitions class_name = some fields) :
    (check_ignore_comment source_lines lineno = (true, ign) →
      check_instantiation source_lines st class_name ks lineno col = st) ∧
    (check_ignore_comment source_lines lineno = (false, ign) →
      ks.any Option.isNone = false →
      (check_instantiation source_lines st class_name ks lineno col).errors
        = st.errors
          ++ (if (pyDiff (pyDiff
                (pySet ((fields.filter fun g => !g.has_default && !g.is_optional).map
                  FieldInfo.name))
                (pySet (ks.filterMap id))) ign).isEmpty then []
              else [(lineno, col, missingMsg class_name (insSort (pyDiff (pyDiff
                (pySet ((fields.filter fun g => !g.has_default && !g.is_optional).map
                  FieldInfo.name))
                (pySet (ks.filterMap id))) ign)))])
          ++ (if (((fields.filter fun g =>
                  (pyDiff (pySet (fields.map FieldInfo.name))
                    (pySet (ks.filterMap id))).elem g.name &&
                    (g.has_default || g.is_optional)).map FieldInfo.name).filter
                      (fun nm => !(ign.elem nm))).isEmpty then []
              else [(lineno, col, optionalMsg class_name (insSort
                (((fields.filter fun g =>
                  (pyDiff (pySet (fields.map FieldInfo.name))
                    (pySet (ks.filterMap id))).elem g.name &&
                    (g.has_default || g.is_optional)).map FieldInfo.name).filter
                      (fun nm => !(ign.elem nm)))))])
          ++ (if (pyDiff (pySet (ks.filterMap id))
                (pySet (fields.map FieldInfo.name))).isEmpty then []
              else [(lineno, col, unknownMsg class_name (insSort
                (pyDiff (pySet (ks.filterMap id))
                  (pySet (fields.map FieldInfo.name)))))])) := by
  constructor
  · intro h
    simp [check_instantiation, h]
  · intro hic hkw
    have hig : (check_ignore_comment source_lines lineno).1 = false := by rw [hic]
    have hig2 : (check_ignore_comment source_lines lineno).2 = ign := by rw [hic]
    have herr := check_instantiation_spec source_lines st class_name ks lineno col hig hkw
    rw [h1] at herr
    simp only [Option.getD_some] at herr
    rw [hig2] at herr
    rw [herr]
    simp only [findingsOf]
    rw [optional_missing_filter]
    simp only [List.append_assoc]
    congr 1
    congr 1
    by_cases hma : (pyDiff (pyDiff (pySet (fields.map FieldInfo.name))
        (pySet (ks.filterMap id))) ign).isEmpty = true
    · have hnil := List.isEmpty_iff.mp hma
      have hOMnil : ((fields.filter fun g =>
          (pyDiff (pySet (fields.map FieldInfo.name))
            (pySet (ks.filterMap id))).elem g.name &&
            (g.has_default || g.is_optional)).map FieldInfo.name).filter
              (fun nm => !(ign.elem nm)) = [] := by
        rw [← optional_missing_filter fields
          (pyDiff (pySet (fields.map FieldInfo.name)) (pySet (ks.filterMap id))) ign,
          hnil]
        simp [List.elem]
      rw [hma, hOMnil]
      simp
    · rw [Bool.not_eq_true] at hma
      rw [hma]
      simp only [Bool.false_eq_true, if_false]

/-- Witness for C3: a bare `ignore` directive suppresses everything; a
`ignore-field age` directive on the call line of a
`{name, email, age, address?, nickname=}` model call supplying
`name, email` leaves exactly the unused-optional finding for
`address, nickname`. -/
theorem spec_C3_witness :
    check_instantiation ["user = User()  # touchall: ignore"]
      (⟨[("User", [⟨"name", false, false⟩])], [], [], []⟩ : CheckerState)
      "User" [] 1 0
      = (⟨[("User", [⟨"name", false, false⟩])], [], [], []⟩ : CheckerState) ∧
    (check_instantiation ["user = User(  # pydantic-touchall: ignore-field age"]
      (⟨[("User", [⟨"name", false, false⟩, ⟨"email", false, false⟩,
          ⟨"age", false, false⟩, ⟨"address", true, true⟩,
          ⟨"nickname", true, false⟩])], [], [], []⟩ : CheckerState)
      "User" [some "name", some "email"] 1 0).errors
      = [(1, 0, optionalMsg "User" ["address", "nickname"])] := by
  constructor
  · exact (spec_C3 ["user = User()  # touchall: ignore"]
      (⟨[("User", [⟨"name", false, false⟩])], [], [], []⟩ : CheckerState)
      "User" [⟨"name", false, false⟩] [] [] 1 0 rfl).1 rfl
  · have h := (spec_C3 ["user = User(  # pydantic-touchall: ignore-field age"]
      (⟨[("User", [⟨"name", false, false⟩, ⟨"email", false, false⟩,
          ⟨"age", false, false⟩, ⟨"address", true, true⟩,
          ⟨"nickname", true, false⟩])], [], [], []⟩ : CheckerState)
      "User" [⟨"name", false, false⟩, ⟨"email", false, false⟩,
          ⟨"age", false, false⟩, ⟨"address", true, true⟩,
          ⟨"nickname", true, false⟩]
      [some "name", some "email"] ["age"] 1 0 rfl).2 rfl rfl
    exact h.trans (by rfl)

/-- C9: positional arguments never count as supplying fields.  Part 1:
the traversal of a call is unchanged when its positional arguments (here
plain names) are dropped — they feed nothing into the check.  Part 2: a
call to a registered model passing only positional arguments (no
keywords, no directive) is reported with a missing-required finding
naming every required field. -/
theorem spec_C9 (ctx : Ctx) (source_lines : List String) (current_file : String)
    (st : CheckerState) (class_name : String) (fields : List FieldInfo)
    (ids : List String) (ks : List (Option String × PyExpr)) (lineno col : Nat) :
    (visitExpr ctx source_lines current_file
        (PyExpr.callE (PyExpr.nameE class_name) (ids.map PyExpr.nameE) ks lineno col) st
      = visitExpr ctx source_lines current_file
        (PyExpr.callE (PyExpr.nameE class_name) [] ks lineno col) st) ∧
    (dictFind st.model_definitions class_name = some fields →
      check_ignore_comment source_lines lineno = (false, []) →
      pySet ((fields.filter fun g => !g.has_default && !g.is_optional).map
        FieldInfo.name) ≠ [] →
      (visitExpr ctx source_lines current_file
          (PyExpr.callE (PyExpr.nameE class_name) (ids.map PyExpr.nameE) [] lineno col)
          st).errors
        = st.errors
          ++ [(lineno, col, missingMsg class_name
                (pySet ((fields.filter fun g => !g.has_default && !g.is_optional).map
                  FieldInfo.name)))]
          ++ (if ((fields.filter fun g =>
                  (pySet (fields.map FieldInfo.name)).elem g.name &&
                    (g.has_default || g.is_optional)).map FieldInfo.name).isEmpty
              then []
              else [(lineno, col, optionalMsg class_name (insSort
                ((fields.filter fun g =>
                  (pySet (fields.map FieldInfo.name)).elem g.name &&
                    (g.has_default || g.is_optional)).map FieldInfo.name)))])) := by
  constructor
  · simp only [visitExpr, visitExprs_names_id, visitExprs]
  · intro h1 h3 hreqne
    have hmem : dictMem st.model_definitions class_name = true := by
      show (dictFind st.model_definitions class_name).isSome = true
      rw [h1]
      rfl
    have hig : (check_ignore_comment source_lines lineno).1 = false := by rw [h3]
    have hig2 : (check_ignore_comment source_lines lineno).2 = [] := by rw [h3]
    simp only [visitExpr, func_class_name]
    rw [load_of_mem _ _ _ _ hmem, hmem]
    simp only [if_true, visitExprs_names_id, visitKeywords, visitExpr_nameE]
    have herr := check_instantiation_spec source_lines st class_name
      (List.map Prod.fst ([] : List (Option String × PyExpr))) lineno col hig (by rfl)
    simp only [List.map_nil] at herr ⊢
    rw [herr, h1]
    simp only [Option.getD_some, hig2]
    simp only [findingsOf, List.filterMap_nil, pySet_nil, pyDiff_nil, pyDiff_nil_left]
    have hRne : (pySet ((fields.filter fun g =>
        !g.has_default && !g.is_optional).map FieldInfo.name)).isEmpty = false :=
      isEmpty_false_of_ne_nil hreqne
    have hAne : (pySet (fields.map FieldInfo.name)).isEmpty = false := by
      rcases List.exists_mem_of_ne_nil _ hreqne with ⟨x, hx⟩
      rcases List.mem_map.mp (mem_pySet.mp hx) with ⟨g, hg, hgn⟩
      apply isEmpty_false_of_ne_nil
      apply List.ne_nil_of_mem (a := x)
      rw [← hgn]
      exact mem_pySet.mpr (List.mem_map_of_mem FieldInfo.name
        (List.mem_filter.mp hg).1)
    rw [hRne, hAne]
    rw [insSort_of_sorted (sorted_pySet _)]
    simp [List.append_assoc]

def ctx9 : Ctx where
  abspath := id
  resolve := fun _ _ => none
  fs := fun _ => .ioError

/-- Witness for C9: `User(x)` with required field `a` passed
positionally is reported missing `a`. -/
theorem spec_C9_witness :
    (visitExpr ctx9 [] "/f.py"
        (PyExpr.callE (PyExpr.nameE "User") (["x"].map PyExpr.nameE)
          [(some "a", PyExpr.constE)] 2 0)
        (⟨[("User", [⟨"a", false, false⟩])], [], [], []⟩ : CheckerState)
      = visitExpr ctx9 [] "/f.py"
        (PyExpr.callE (PyExpr.nameE "User") [] [(some "a", PyExpr.constE)] 2 0)
        (⟨[("User", [⟨"a", false, false⟩])], [], [], []⟩ : CheckerState)) ∧
    (visitExpr ctx9 [] "/f.py"
        (PyExpr.callE (PyExpr.nameE "User") (["x"].map PyExpr.nameE) [] 2 0)
        (⟨[("User", [⟨"a", false, false⟩])], [], [], []⟩ : CheckerState)).errors
      = [(2, 0, missingMsg "User" ["a"])] := by
  refine ⟨(spec_C9 ctx9 [] "/f.py" _ "User" [⟨"a", false, false⟩] ["x"]
    [(some "a", PyExpr.constE)] 2 0).1, ?_⟩
  have h := (spec_C9 ctx9 [] "/f.py"
    (⟨[("User", [⟨"a", false, false⟩])], [], [], []⟩ : CheckerState)
    "User" [⟨"a", false, false⟩] ["x"] [] 2 0).2 rfl rfl (by decide)
  exact h.trans (by rfl)

/-- `b` leaves the registry-related fields of `a` unchanged. -/
def KeepsRegistry (a b : CheckerState) : Prop :=
  b.model_definitions = a.model_definitions ∧
  b.processed_files = a.processed_files ∧
  b.imported_models = a.imported_models

theorem keepsRegistry_trans {a b c : CheckerState} (h1 : KeepsRegistry a b)
    (h2 : KeepsRegistry b c) : KeepsRegistry a c :=
  ⟨h2.1.trans h1.1, h2.2.1.trans h1.2.1, h2.2.2.trans h1.2.2⟩

/-- The temp checker's expression traversal never touches the model
registry, the processed-file set or the import table — it can only
append errors (which the merge discards). -/
theorem tvisit_keeps_all :
    (∀ e st, KeepsRegistry st (tvisitExpr e st)) ∧
    (∀ es st, KeepsRegistry st (tvisitExprs es st)) ∧
    (∀ kws st, KeepsRegistry st (tvisitKeywords kws st)) := by
  refine tvisitExpr.mutual_induct
    (fun e st => KeepsRegistry st (tvisitExpr e st))
    (fun es st => KeepsRegistry st (tvisitExprs es st))
    (fun kws st => KeepsRegistry st (tvisitKeywords kws st))
    ?_ ?_ ?_ ?_ ?_ ?_ ?_ ?_ ?_ ?_
  · intro id st
    exact ⟨rfl, rfl, rfl⟩
  · intro st
    exact ⟨rfl, rfl, rfl⟩
  · intro v attr st ih
    exact ih
  · intro v s st ih1 ih2
    exact keepsRegistry_trans ih1 ih2
  · intro t b o st ih1 ih2 ih3
    exact keepsRegistry_trans (keepsRegistry_trans ih1 ih2) ih3
  · intro func args keywords lineno col st
    intro st1 ih1 ih2 ih3
    have h0 : KeepsRegistry st st1 := by
      show KeepsRegistry st (match func_class_name func with
        | some class_name =>
            if dictMem st.model_definitions class_name = true then
              check_instantiation [] st class_name (List.map Prod.fst keywords) lineno col
            else st
        | none => st)
      cases func_class_name func with
      | none => exact ⟨rfl, rfl, rfl⟩
      | some class_name =>
        simp only
        split
        · exact check_instantiation_keeps [] st class_name
            (List.map Prod.fst keywords) lineno col
        · exact ⟨rfl, rfl, rfl⟩
    exact keepsRegistry_trans (keepsRegistry_trans (keepsRegistry_trans h0 ih1) ih2) ih3
  · intro st
    exact ⟨rfl, rfl, rfl⟩
  · intro e rest st ih1 ih2
    exact keepsRegistry_trans ih1 ih2
  · intro st
    exact ⟨rfl, rfl, rfl⟩
  · intro kw rest st ih1 ih2
    exact keepsRegistry_trans ih1 ih2

/-- A class body consisting solely of annotated assignments is
traversed by the temp checker without touching its registry. -/
theorem tvisitStmts_annAssign_keeps (body : List Stmt)
    (h : ∀ item ∈ body, ∃ t a v, item = Stmt.annAssign t a v) (st : CheckerState) :
    KeepsRegistry st (tvisitStmts body st) := by
  induction body generalizing st with
  | nil => exact ⟨rfl, rfl, rfl⟩
  | cons s rest ih =>
    rcases h s (List.mem_cons_self _ _) with ⟨t, a, v, rfl⟩
    rw [tvisitStmts]
    have h1 : KeepsRegistry st (tvisitStmt (Stmt.annAssign t a v) st) := by
      cases v with
      | none =>
        rw [tvisitStmt]
        exact tvisit_keeps_all.1 a st
      | some w =>
        rw [tvisitStmt]
        exact keepsRegistry_trans (tvisit_keeps_all.1 a st) (tvisit_keeps_all.1 w _)
    exact keepsRegistry_trans h1 (ih (fun i hi => h i (List.mem_cons_of_mem _ hi)) _)

/-- Analysed file: imports `M` from module `b` and calls it. -/
def modA5 : PyModule :=
  [ .importFrom (some "b") [("M", none)],
    .exprStmt (.callE (.nameE "M") [] [(some "a", .constE)] 10 0) ]

/-- Module `b`: merely re-imports `M` from module `c`, declares
nothing. -/
def modB5 : PyModule := [ .importFrom (some "c") [("M", none)] ]

/-- Module `c`: declares `M` with one required field `a`. -/
def modC5 : PyModule :=
  [ .classDef "M" [.nameE "BaseModel"] [.annAssign (some "a") (.nameE "str") none] ]

/-- Environment in which every resolution step succeeds: `b ↦ /b.py`,
`c ↦ /c.py`, and all three files parse. -/
def ctx5 : Ctx where
  abspath := id
  resolve := fun m _ =>
    if m == "b" then some "/b.py" else if m == "c" then some "/c.py" else none
  fs := fun p =>
    if p == "/a.py" then .src (.parsed modA5 [])
    else if p == "/b.py" then .src (.parsed modB5 [])
    else if p == "/c.py" then .src (.parsed modC5 []) else .ioError

/-- Counterexample to C5: although `/a.py` imports `M` from `b`, `b`
imports `M` from `c`, and `c` declares `M` — with every file readable
and every module resolvable — analysing `/a.py` does *not* register
`M`'s field list (the temp checker built for `b` has no `current_file`,
so it never follows `b`'s imports), and the call to `M` is silently
skipped: no findings at all. -/
theorem spec_C5_counterexample :
    dictFind (visitStmts ctx5 [] "/a.py" modA5
      (⟨[], [], ["/a.py"], []⟩ : CheckerState)).model_definitions "M" = none ∧
    check_file ctx5 "/a.py" true = .ok [] := by
  exact ⟨rfl, rfl⟩

/-- C5 (amended): import discovery is one level deep, not transitive.
When the analysed file imports `model_name` from a module that resolves
to a file whose tree *declares* `model_name` as a model class (its body
being plain annotated assignments), `_load_imported_model` registers
exactly the extracted field list.  (The counterexample shows the claim
fails as soon as one more indirection is inserted.) -/
theorem spec_C5_amended (ctx : Ctx) (current_file model_name module_path file_path : String)
    (st : CheckerState) (bases : List PyExpr) (body : List Stmt) (ls : List String)
    (h0 : dictMem st.model_definitions model_name = false)
    (h1 : dictFind st.imported_models model_name = some module_path)
    (h2 : ctx.resolve module_path current_file = some file_path)
    (h3 : file_path ∉ st.processed_files)
    (h4 : ctx.fs file_path = .src (.parsed [Stmt.classDef model_name bases body] ls))
    (h5 : bases.any is_model_base = true)
    (h6 : ∀ item ∈ body, ∃ t a v, item = Stmt.annAssign t a v) :
    dictFind (load_imported_model ctx current_file model_name st).model_definitions
      model_name = some (extract_fields body) := by
  simp only [load_imported_model, h0, Bool.false_eq_true, if_false, h1, h2]
  rw [if_neg h3, h4]
  have htemp : ∀ (init : CheckerState), init.model_definitions = [] →
      (tvisitStmts [Stmt.classDef model_name bases body] init).model_definitions
        = [(model_name, extract_fields body)] := by
    intro init hinit
    rw [tvisitStmts, tvisitStmts, tvisitStmt]
    rw [(tvisitStmts_annAssign_keeps body h6 _).1]
    rw [(tvisit_keeps_all.2.1 bases _).1]
    simp [visit_ClassDef, h5, dictInsert, hinit]
  dsimp only
  rw [htemp _ rfl]
  simp only [mergeDefs, List.foldl_cons, List.foldl_nil]
  rw [if_pos (by simp)]
  exact dictFind_dictInsert_self _ _ _

/-- Module `b` for the one-level witness: declares `M` directly. -/
def modB5w : PyModule :=
  [ .classDef "M" [.nameE "BaseModel"] [.annAssign (some "a") (.nameE "str") none] ]

def ctx5w : Ctx where
  abspath := id
  resolve := fun m _ => if m == "b" then some "/b.py" else none
  fs := fun p => if p == "/b.py" then .src (.parsed modB5w []) else .ioError

/-- Witness for C5 (amended): one level of import indirection is
resolved and registers the declared field list. -/
theorem spec_C5_amended_witness :
    dictFind (load_imported_model ctx5w "/a.py" "M"
      (⟨[], [], ["/a.py"], [("M", "b")]⟩ : CheckerState)).model_definitions "M"
      = some (extract_fields [Stmt.annAssign (some "a") (PyExpr.nameE "str") none]) :=
  spec_C5_amended ctx5w "/a.py" "M" "b" "/b.py"
    (⟨[], [], ["/a.py"], [("M", "b")]⟩ : CheckerState)
    [PyExpr.nameE "BaseModel"] [Stmt.annAssign (some "a") (PyExpr.nameE "str") none] []
    rfl rfl rfl (by decide) rfl rfl
    (by
      intro item hi
      rw [List.mem_singleton] at hi
      exact ⟨some "a", PyExpr.nameE "str", none, hi⟩)
